import Mathlib

/-!
Verification development for the AI-Novel-Writer repository.

The Python source is shallowly embedded: Python dicts parsed from LLM
responses become the inductive type `Json` (association lists model the
insertion-ordered dicts), the JSON extraction pipeline of
`novel_writer/core/json_parser.py` becomes executable functions over
`List Char`, the retry protocol of `novel_writer/services/llm_service.py`
becomes a fuelled loop threading the message list, and the orchestrator
methods of `novel_writer/core/novel_writer_core.py` become pure state
transformers over a `NovelProject` structure.  LLM calls are modelled by
passing the parsed response (the oracle's output) as an explicit argument;
prompt construction only feeds the oracle and does not touch project
state, so it is not reproduced.  Python `int` indices are modelled as
`Int` with Python's wrap-around indexing semantics.
-/

/-- JSON values as produced by `json.loads`.  Objects keep their members as
an insertion-ordered association list, which is how Python dicts behave.
Only integral numerals are modelled; the repository's payloads use only
integers and strings. -/
inductive Json where
  | obj (kvs : List (String × Json)) : Json
  | arr (items : List Json) : Json
  | str (text : String) : Json
  | num (value : Int) : Json
  | bool (value : Bool) : Json
  | null : Json
deriving Repr

/-- Python truthiness (`if result:`) for parsed JSON data. -/
def Json.pyTruthy : Json → Bool
  | .null => false
  | .bool b => b
  | .num n => n != 0
  | .str s => s != ""
  | .arr es => !es.isEmpty
  | .obj ms => !ms.isEmpty

/-- The acceptance test of the extraction strategies:
`isinstance(result, dict) and result`. -/
def Json.isNonEmptyObj : Json → Bool
  | .obj ms => !ms.isEmpty
  | _ => false

/-- Dictionary lookup (`result["key"]` / `key in result`); `none` on
non-objects. -/
def Json.lookup (j : Json) (key : String) : Option Json :=
  match j with
  | .obj ms => ms.lookup key
  | _ => none

/-- `d.get(key, default)` restricted to string values; a non-string value
under the key also yields the default (the repository's payloads are
well-typed, so this corner is not exercised). -/
def Json.getStrD (j : Json) (key : String) (dflt : String) : String :=
  match j.lookup key with
  | some (.str s) => s
  | _ => dflt

/-- `d.get(key, default)` restricted to integer values. -/
def Json.getIntD (j : Json) (key : String) (dflt : Int) : Int :=
  match j.lookup key with
  | some (.num n) => n
  | _ => dflt

/-- `d.get(key, [])` as a list of JSON values. -/
def Json.getArrD (j : Json) (key : String) : List Json :=
  match j.lookup key with
  | some (.arr es) => es
  | _ => []

/-- `d.get(key, [])` keeping the string elements.  Non-string elements are
dropped (Python would keep them untyped; the modelled payloads only carry
strings here). -/
def Json.getStrListD (j : Json) (key : String) : List String :=
  (j.getArrD key).filterMap fun v =>
    match v with
    | .str s => some s
    | _ => none

/-! ## A JSON parser modelling `json.loads`

Recursive descent over `List Char` with explicit fuel so that every
function is structurally recursive and kernel-reducible.  The modelled
fragment: objects, arrays, strings with the standard escapes, integral
numbers, `true`/`false`/`null`, JSON whitespace.  Fractional and exponent
numerals are rejected (the repository's payloads never contain them);
duplicate object keys are kept in order rather than collapsed. -/

/-- JSON whitespace (`json.loads` skips exactly these). -/
def jsonWs (c : Char) : Bool :=
  c = ' ' || c = '\t' || c = '\n' || c = '\r'

def skipWs (cs : List Char) : List Char :=
  cs.dropWhile jsonWs

def isDigitChar (c : Char) : Bool :=
  '0' ≤ c && c ≤ '9'

/-- Decode one string-literal escape character (after the backslash);
`none` for invalid escapes, `some (c, needsHex)` otherwise. -/
def decodeEscape (c : Char) : Option Char :=
  if c = '"' then some '"'
  else if c = '\\' then some '\\'
  else if c = '/' then some '/'
  else if c = 'b' then some (Char.ofNat 8)
  else if c = 'f' then some (Char.ofNat 12)
  else if c = 'n' then some '\n'
  else if c = 'r' then some '\r'
  else if c = 't' then some '\t'
  else none

def hexVal (c : Char) : Option Nat :=
  let n := c.toNat
  if 48 ≤ n && n ≤ 57 then some (n - 48)
  else if 97 ≤ n && n ≤ 102 then some (n - 87)
  else if 65 ≤ n && n ≤ 70 then some (n - 55)
  else none

/-- Parse the body of a string literal (the opening quote already
consumed); returns the decoded characters and the remainder after the
closing quote. -/
def pStringBody : List Char → Option (List Char × List Char)
  | [] => none
  | c :: rest =>
    if c = '"' then some ([], rest)
    else if c = '\\' then
      match rest with
      | [] => none
      | e :: rest' =>
        if e = 'u' then
          match rest' with
          | h1 :: h2 :: h3 :: h4 :: rest'' =>
            match hexVal h1, hexVal h2, hexVal h3, hexVal h4 with
            | some a, some b, some c', some d =>
              match pStringBody rest'' with
              | some (tail, rem) =>
                some (Char.ofNat (((a * 16 + b) * 16 + c') * 16 + d) :: tail, rem)
              | none => none
            | _, _, _, _ => none
          | _ => none
        else
          match decodeEscape e with
          | some d =>
            match pStringBody rest' with
            | some (tail, rem) => some (d :: tail, rem)
            | none => none
          | none => none
    else if c.toNat < 32 then none
    else
      match pStringBody rest with
      | some (tail, rem) => some (c :: tail, rem)
      | none => none

/-- Parse a string literal starting at `"`. -/
def pString (cs : List Char) : Option (String × List Char) :=
  match cs with
  | '"' :: rest =>
    match pStringBody rest with
    | some (body, rem) => some (String.mk body, rem)
    | none => none
  | _ => none

def digitsToNat (ds : List Char) : Nat :=
  ds.foldl (fun acc d => 10 * acc + (d.toNat - 48)) 0

/-- Parse an integral JSON number (optional minus, no leading zeros,
rejecting a following `.`/`e`/`E`, i.e. the non-integral numerals left
outside the modelled fragment). -/
def pNumber (cs : List Char) : Option (Int × List Char) :=
  let (neg, cs') :=
    match cs with
    | '-' :: rest => (true, rest)
    | _ => (false, cs)
  let ds := cs'.takeWhile isDigitChar
  let rest := cs'.dropWhile isDigitChar
  if ds.isEmpty then none
  else if ds.length > 1 && ds.headI = '0' then none
  else
    match rest with
    | '.' :: _ => none
    | 'e' :: _ => none
    | 'E' :: _ => none
    | _ =>
      let n : Int := (digitsToNat ds : Int)
      some (if neg then -n else n, rest)

mutual

/-- Parse one JSON value (leading whitespace allowed). -/
def pValue : Nat → List Char → Option (Json × List Char)
  | 0, _ => none
  | fuel + 1, cs =>
    match skipWs cs with
    | [] => none
    | c :: rest =>
      if c = '{' then
        pMembers fuel rest
      else if c = '[' then
        pElems fuel rest
      else if c = '"' then
        match pString (c :: rest) with
        | some (s, rem) => some (.str s, rem)
        | none => none
      else if c = 't' then
        match rest with
        | 'r' :: 'u' :: 'e' :: rem => some (.bool true, rem)
        | _ => none
      else if c = 'f' then
        match rest with
        | 'a' :: 'l' :: 's' :: 'e' :: rem => some (.bool false, rem)
        | _ => none
      else if c = 'n' then
        match rest with
        | 'u' :: 'l' :: 'l' :: rem => some (.null, rem)
        | _ => none
      else
        match pNumber (c :: rest) with
        | some (n, rem) => some (.num n, rem)
        | none => none

/-- Parse object members after the opening brace, including the closing
brace. -/
def pMembers : Nat → List Char → Option (Json × List Char)
  | 0, _ => none
  | fuel + 1, cs =>
    match skipWs cs with
    | '}' :: rest => some (.obj [], rest)
    | cs' => pMemberList fuel cs'

/-- Parse a non-empty member list up to and including the closing brace. -/
def pMemberList : Nat → List Char → Option (Json × List Char)
  | 0, _ => none
  | fuel + 1, cs =>
    match pString cs with
    | none => none
    | some (key, rest) =>
      match skipWs rest with
      | ':' :: rest' =>
        match pValue fuel rest' with
        | none => none
        | some (v, rest'') =>
          match skipWs rest'' with
          | ',' :: rest''' =>
            match pMemberList fuel (skipWs rest''') with
            | some (.obj ms, rem) => some (.obj ((key, v) :: ms), rem)
            | _ => none
          | '}' :: rest''' => some (.obj [(key, v)], rest''')
          | _ => none
      | _ => none

/-- Parse array elements after the opening bracket, including the closing
bracket. -/
def pElems : Nat → List Char → Option (Json × List Char)
  | 0, _ => none
  | fuel + 1, cs =>
    match skipWs cs with
    | ']' :: rest => some (.arr [], rest)
    | cs' => pElemList fuel cs'

/-- Parse a non-empty element list up to and including the closing
bracket. -/
def pElemList : Nat → List Char → Option (Json × List Char)
  | 0, _ => none
  | fuel + 1, cs =>
    match pValue fuel cs with
    | none => none
    | some (v, rest) =>
      match skipWs rest with
      | ',' :: rest' =>
        match pElemList fuel rest' with
        | some (.arr es, rem) => some (.arr (v :: es), rem)
        | _ => none
      | ']' :: rest' => some (.arr [v], rest')
      | _ => none

end

/-- `json.loads` on a character list: one value, then only whitespace. -/
def jsonLoadsChars (cs : List Char) : Option Json :=
  match pValue (2 * cs.length + 2) cs with
  | some (v, rest) => if (skipWs rest).isEmpty then some v else none
  | none => none

/-- `json.loads` on a string. -/
def jsonLoads (s : String) : Option Json :=
  jsonLoadsChars s.data

/-! ## `JSONParser` (`novel_writer/core/json_parser.py`)

`extract_json_from_content` tries three regex strategies, then a manual
repair pass.  The regexes are fixed patterns, embedded as deterministic
scanners (their character classes are disjoint from the required
delimiters, so the Python engine's backtracking never changes the
outcome; where a failed alternative makes the engine restart one
character later, the scanners do the same). -/

/-- Python whitespace as stripped by `str.strip` and matched by `\s`. -/
def pyWs (c : Char) : Bool :=
  c = ' ' || c = '\t' || c = '\n' || c = '\r' || c = Char.ofNat 11 || c = Char.ofNat 12

/-- `str.strip()`. -/
def pyStrip (cs : List Char) : List Char :=
  ((cs.dropWhile pyWs).reverse.dropWhile pyWs).reverse

/-- `JSONParser._clean_json_string`: strip a leading BOM, strip
whitespace, then trim to the first `{` and the last `}`. -/
def clean_json_string (cs : List Char) : List Char :=
  let cs1 := pyStrip (cs.dropWhile (fun c => c = Char.ofNat 0xFEFF))
  let cs2 := if cs1.contains '{' then cs1.dropWhile (fun c => c ≠ '{') else cs1
  if cs2.contains '}' then (cs2.reverse.dropWhile (fun c => c ≠ '}')).reverse else cs2

/-- First occurrence of `pat`: returns the text before it and the text
after it. -/
def findSub (pat : List Char) : List Char → Option (List Char × List Char)
  | [] => if pat.isEmpty then some ([], []) else none
  | c :: rest =>
    if pat.isPrefixOf (c :: rest) then some ([], (c :: rest).drop pat.length)
    else
      match findSub pat rest with
      | some (pre, after) => some (c :: pre, after)
      | none => none

/-- Strategy 1, `re.findall` of the pattern matching a ```` ```json ````
fenced block with a lazy body: each match is the text between a
```` ```json ```` opener and the nearest following ```` ``` ````.  (The
pattern's surrounding `\s*` only trims whitespace that the caller's
`.strip()` removes again, so the captured group is modelled as the raw
between-text.) -/
def strat1Matches : Nat → List Char → List (List Char)
  | 0, _ => []
  | fuel + 1, cs =>
    match findSub "```json".data cs with
    | none => []
    | some (_, rest) =>
      match findSub "```".data rest with
      | none => []
      | some (content, rest') => content :: strat1Matches fuel rest'

/-- `c` is neither `{` nor `}`. -/
def nonBrace (c : Char) : Bool :=
  c ≠ '{' && c ≠ '}'

/-- Lazy search for the end of a strategy-2 body: the first `}` followed
by whitespace and ```` ``` ````.  Returns the body (ending at that `}`)
and the text after the closing fence. -/
def strat2FindEnd : List Char → Option (List Char × List Char)
  | [] => none
  | c :: rest =>
    if c = '}' && "```".data.isPrefixOf (rest.dropWhile pyWs) then
      some ([c], (rest.dropWhile pyWs).drop 3)
    else
      match strat2FindEnd rest with
      | some (body, after) => some (c :: body, after)
      | none => none

/-- Strategy 2, `re.findall` of the pattern matching a generic fenced
block whose body is a lazy `{...}` group: at each ```` ``` ````, skip
whitespace, require `{`, then find the lazy end; on failure the engine
restarts one character after the fence start. -/
def strat2Matches : Nat → List Char → List (List Char)
  | 0, _ => []
  | fuel + 1, cs =>
    match findSub "```".data cs with
    | none => []
    | some (_, rest) =>
      match rest.dropWhile pyWs with
      | '{' :: rest' =>
        match strat2FindEnd rest' with
        | some (body, after) => ('{' :: body) :: strat2Matches fuel after
        | none => strat2Matches fuel ('`' :: '`' :: rest)
      | _ => strat2Matches fuel ('`' :: '`' :: rest)

/-- The iteration part of the strategy-3 pattern
`\{[^{}]*(?:\{[^{}]*\}[^{}]*)*\}`: after the leading `{[^{}]*`, either
close with `}`, or consume one `{[^{}]*}[^{}]*` group and continue.  A
group that cannot complete fails the whole match (no shorter alternative
can succeed, as `[^{}]` cannot match a brace). -/
def strat3AfterRun : Nat → List Char → Option (List Char × List Char)
  | _, '}' :: rest => some (['}'], rest)
  | fuel + 1, '{' :: rest =>
    let run2 := rest.takeWhile nonBrace
    let r2 := rest.dropWhile nonBrace
    match r2 with
    | '}' :: r3 =>
      let run3 := r3.takeWhile nonBrace
      let r4 := r3.dropWhile nonBrace
      match strat3AfterRun fuel r4 with
      | some (tail, rem) => some ('{' :: run2 ++ '}' :: run3 ++ tail, rem)
      | none => none
    | _ => none
  | _, _ => none

/-- Attempt the strategy-3 pattern at a position starting with `{`. -/
def matchStrat3At (fuel : Nat) (cs : List Char) : Option (List Char × List Char) :=
  match cs with
  | '{' :: rest =>
    let run1 := rest.takeWhile nonBrace
    let r1 := rest.dropWhile nonBrace
    match strat3AfterRun fuel r1 with
    | some (tail, rem) => some ('{' :: run1 ++ tail, rem)
    | none => none
  | _ => none

/-- Strategy 3, `re.findall` of `\{[^{}]*(?:\{[^{}]*\}[^{}]*)*\}`:
leftmost, non-overlapping matches. -/
def strat3Matches : Nat → List Char → List (List Char)
  | 0, _ => []
  | _ + 1, [] => []
  | fuel + 1, c :: rest =>
    if c = '{' then
      match matchStrat3At (fuel + 1) (c :: rest) with
      | some (m, after) => m :: strat3Matches fuel after
      | none => strat3Matches fuel rest
    else strat3Matches fuel rest

/-- Per-candidate step of `extract_json_from_content`: strip, clean,
parse, and accept only a non-empty object. -/
def tryCandidate (cand : List Char) : Option Json :=
  let cleaned := clean_json_string (pyStrip cand)
  match jsonLoadsChars cleaned with
  | some j => if j.isNonEmptyObj then some j else none
  | none => none

/-- Try candidates in order, returning the first accepted one. -/
def tryCandidates : List (List Char) → Option Json
  | [] => none
  | c :: rest =>
    match tryCandidate c with
    | some j => some j
    | none => tryCandidates rest

/-- The suffix of `cs` starting at the first `{` (`content.find('{')`). -/
def findOpenBrace : List Char → Option (List Char)
  | [] => none
  | c :: rest => if c = '{' then some (c :: rest) else findOpenBrace rest

/-- The brace-depth scan of `_attempt_json_repair`: walk the characters
keeping `brace_count`; report the position one past the `}` at which the
count returns to zero. -/
def repairScan : List Char → Int → Nat → Option Nat
  | [], _, _ => none
  | c :: rest, d, i =>
    let d' := if c = '{' then d + 1 else if c = '}' then d - 1 else d
    if c = '}' && d' = 0 then some (i + 1) else repairScan rest d' (i + 1)

/-- `JSONParser._attempt_json_repair`: take the text from the first `{`,
cut it where the brace depth returns to zero, and parse that; `NotFound`
when there is no `{` or the depth never returns to zero. -/
def attempt_json_repair (cs : List Char) : Option Json :=
  match findOpenBrace cs with
  | none => none
  | some jsonPart =>
    match repairScan jsonPart 0 0 with
    | some validEnd => jsonLoadsChars (jsonPart.take validEnd)
    | none => none

/-- `JSONParser.extract_json_from_content`: the three regex strategies in
order, each candidate cleaned and parsed, then the manual repair pass. -/
def extract_json_from_content (content : String) : Option Json :=
  let cs := content.data
  let fuel := cs.length + 1
  match tryCandidates (strat1Matches fuel cs ++ strat2Matches fuel cs ++ strat3Matches fuel cs) with
  | some j => some j
  | none => attempt_json_repair cs

/-! ## `LLMService` (`novel_writer/services/llm_service.py`)

`call_llm_with_thinking` is the bounded parse-retry loop.  The API
connector is an oracle `attempt index → messages → content or transport
error`; the task-specific system prompt (built by `PromptManager`) is a
parameter, since its text never influences the control flow modelled
here.  Thinking-content extraction is diagnostics only (it never affects
control flow) and is not modelled. -/

structure ChatMessage where
  role : String
  content : String
deriving Repr, DecidableEq

inductive LLMError where
  | transport (msg : String)
  | jsonParse (msg : String)
deriving Repr, DecidableEq

/-- `self.json_retry_max = 3`. -/
def jsonRetryMax : Nat := 3

/-- The escalation suffix chosen by `_enhance_json_prompt` for a given
retry count (1, 2, or the general checklist). -/
def jsonEmphasis (retryCount : Nat) : String :=
  if retryCount = 1 then
    "\n\n⚠️ 重要提醒：請務必嚴格按照JSON格式回應！\n- 必須使用```json```代碼塊包圍JSON內容\n- 確保JSON語法正確，所有字符串都用雙引號包圍\n- 不要在JSON前後添加任何解釋文字\n- 確保所有括號和逗號都正確配對\n\n示例格式：\n```json\n\x7b\n    \"key\": \"value\"\n\x7d\n```"
  else if retryCount = 2 then
    "\n\n🚨 最後警告：JSON格式要求！\n- 只能輸出JSON，不要任何其他文字\n- 使用標準JSON語法，不要使用單引號\n- 確保所有數字不要用引號包圍\n- 確保布爾值使用true/false而不是True/False\n- 陣列和物件的最後一個元素後不要有逗號\n\n嚴格按照以下格式：\n```json\n\x7b\n    \"required_field\": \"必填內容\"\n\x7d\n```\n\n立即輸出JSON，不要任何解釋！"
  else
    "\n\n📋 JSON格式檢查清單：\n✓ 使用```json```代碼塊\n✓ 所有字符串用雙引號\n✓ 數字不用引號\n✓ 布爾值用true/false\n✓ 最後元素無逗號\n✓ 括號正確配對\n\n請立即輸出正確的JSON格式！"

/-- `LLMService._enhance_json_prompt`: copy the conversation and append
the escalation suffix to the last message if it is a user message. -/
def enhance_json_prompt (messages : List ChatMessage) (retryCount : Nat) : List ChatMessage :=
  match messages.getLast? with
  | some m =>
    if m.role = "user" then
      messages.dropLast ++ [⟨m.role, m.content ++ jsonEmphasis retryCount⟩]
    else messages
  | none => messages

/-- The retry loop of `call_llm_with_thinking`.  `remaining` counts the
attempts left (starting at `jsonRetryMax`), `attempt` is the 0-based
attempt index.  The second component of the result is the trace of
message lists actually sent to the API, one entry per attempt.  A
transport error is re-raised immediately; a parse failure retries with
the enhanced conversation while attempts remain and raises
`JSONParseException` otherwise. -/
def callLLMLoop (api : Nat → List ChatMessage → Except String String) :
    Nat → Nat → List ChatMessage → List (List ChatMessage) →
    Except LLMError Json × List (List ChatMessage)
  | 0, _, _, trace => (.error (.jsonParse "JSON解析重試機制異常結束"), trace)
  | remaining + 1, attempt, messages, trace =>
    let trace := trace ++ [messages]
    match api attempt messages with
    | .error e => (.error (.transport e), trace)
    | .ok content =>
      let failed :=
        match extract_json_from_content content with
        | some j => !j.pyTruthy
        | none => true
      if failed then
        if remaining = 0 then
          (.error (.jsonParse "經過多次重試仍無法解析JSON回應"), trace)
        else
          callLLMLoop api remaining (attempt + 1)
            (enhance_json_prompt messages (attempt + 1)) trace
      else
        match extract_json_from_content content with
        | some j => (.ok j, trace)
        | none => (.error (.jsonParse "經過多次重試仍無法解析JSON回應"), trace)

/-- `LLMService.call_llm_with_thinking`: send `[system, user]` and run the
parse-retry loop. -/
def call_llm_with_thinking (api : Nat → List ChatMessage → Except String String)
    (systemPrompt userPrompt : String) :
    Except LLMError Json × List (List ChatMessage) :=
  callLLMLoop api jsonRetryMax 0 [⟨"system", systemPrompt⟩, ⟨"user", userPrompt⟩] []

/-! ## Data model (`novel_writer/models/data_models.py`, `enums.py`) -/

inductive CreationStatus where
  | notStarted
  | inProgress
  | completed
  | error
deriving Repr, DecidableEq

/-- The string value of the `CreationStatus` enum member. -/
def CreationStatus.value : CreationStatus → String
  | .notStarted => "未開始"
  | .inProgress => "進行中"
  | .completed => "已完成"
  | .error => "錯誤"

inductive WritingStyle where
  | firstPerson
  | thirdPersonLimited
  | thirdPersonOmniscient
  | multiplePov
deriving Repr, DecidableEq

def WritingStyle.value : WritingStyle → String
  | .firstPerson => "第一人稱"
  | .thirdPersonLimited => "第三人稱限制視角"
  | .thirdPersonOmniscient => "第三人稱全知視角"
  | .multiplePov => "多重視角"

inductive PacingStyle where
  | slowBurn
  | fastPaced
  | balanced
  | episodic
deriving Repr, DecidableEq

def PacingStyle.value : PacingStyle → String
  | .slowBurn => "慢熱型"
  | .fastPaced => "快節奏"
  | .balanced => "平衡型"
  | .episodic => "章回體"

structure Paragraph where
  order : Int
  purpose : String
  content_type : String := ""
  key_points : List String := []
  estimated_words : Int := 0
  mood : String := ""
  content : String := ""
  status : CreationStatus := .notStarted
  word_count : Int := 0
deriving Repr

structure Chapter where
  title : String
  summary : String
  key_events : List String := []
  characters_involved : List String := []
  estimated_words : Int := 3000
  outline : Json := .obj []
  paragraphs : List Paragraph := []
  content : String := ""
  status : CreationStatus := .notStarted
deriving Repr

structure ChapterPlotSummary where
  chapter_index : Int
  chapter_title : String
  plot_points : List String := []
  summary : String := ""
  key_developments : List String := []
  characters_introduced : List String := []
  settings_introduced : List String := []
deriving Repr

/-- The three name→description maps are insertion-ordered association
lists (Python dicts); `plotPoints` is the flat global list. -/
structure WorldBuilding where
  characters : List (String × String) := []
  settings : List (String × String) := []
  terminology : List (String × String) := []
  plot_points : List String := []
  relationships : List Json := []
  style_guide : String := ""
  chapter_notes : List String := []
  chapter_plot_summaries : List (Int × ChapterPlotSummary) := []
  current_chapter_plot_points : List String := []
deriving Repr

structure APIConfig where
  base_url : String := "https://api.openai.com/v1"
  model : String := "gpt-4"
  provider : String := "openai"
  api_key : String := ""
  max_retries : Int := 3
  timeout : Int := 60
  language : String := "zh-TW"
  use_traditional_quotes : Bool := true
  disable_thinking : Bool := false
  use_planning_model : Bool := false
  planning_base_url : String := "https://api.openai.com/v1"
  planning_model : String := "gpt-4-turbo"
  planning_provider : String := "openai"
  planning_api_key : String := ""
deriving Repr

structure GlobalWritingConfig where
  writing_style : WritingStyle := .thirdPersonLimited
  pacing_style : PacingStyle := .balanced
  tone : String := "溫暖"
  continuous_themes : List String := []
  must_include_elements : List String := []
  avoid_elements : List String := []
  target_chapter_words : Int := 3000
  target_paragraph_words : Int := 300
  paragraph_count_preference : String := "適中"
  dialogue_style : String := "自然對話"
  description_density : String := "適中"
  emotional_intensity : String := "適中"
  global_instructions : String := ""
deriving Repr

structure NovelProject where
  title : String := ""
  theme : String := ""
  outline : String := ""
  outline_additional_prompt : String := ""
  chapters_additional_prompt : String := ""
  chapters : List Chapter := []
  world_building : WorldBuilding := {}
  current_context : String := ""
  api_config : APIConfig := {}
  global_config : GlobalWritingConfig := {}
deriving Repr

/-! ## Python helpers: dict assignment and list indexing -/

/-- `d[k] = v` on an insertion-ordered dict: replace in place when the
key exists, append otherwise. -/
def assocSet {β : Type} (m : List (String × β)) (k : String) (v : β) : List (String × β) :=
  if (m.lookup k).isSome then
    m.map fun kv => if kv.1 = k then (k, v) else kv
  else m ++ [(k, v)]

/-- `d[k] = v` for an `int`-keyed dict. -/
def iassocSet {β : Type} (m : List (Int × β)) (k : Int) (v : β) : List (Int × β) :=
  if (m.lookup k).isSome then
    m.map fun kv => if kv.1 = k then (k, v) else kv
  else m ++ [(k, v)]

/-- Resolve a Python list index (negative indices wrap from the end);
`none` means `IndexError`. -/
def pyIdx (len : Nat) (i : Int) : Option Nat :=
  if 0 ≤ i then
    if i < (len : Int) then some i.toNat else none
  else
    if 0 ≤ (len : Int) + i then some ((len : Int) + i).toNat else none

/-- `l[i]` with Python indexing. -/
def pyGet {α : Type} (l : List α) (i : Int) : Option α :=
  (pyIdx l.length i).bind fun k => l.get? k

/-! ## `NovelWriterCore` (`novel_writer/core/novel_writer_core.py`)

Each stage method takes the parsed LLM response (the oracle's output) as
an explicit argument.  `llmCalls` counts how many times the
`call_llm_with_thinking` line would have executed, which makes "fails
before any LLM call" expressible.  Exceptions (`ValueError` on the
explicit range guards, `IndexError` on a wrapping index below
`-len`, `TypeError` on payloads whose iteration would crash) are modelled
with `Except`; on an error the project is unchanged, matching the source
where every raise precedes the first mutation. -/

inductive PyError where
  | valueError (msg : String)
  | indexError
  | typeError
deriving Repr, DecidableEq

structure StageOut (α : Type) where
  project : NovelProject
  result : Except PyError α
  llmCalls : Nat

def Json.isObjB : Json → Bool
  | .obj _ => true
  | _ => false

/-- One chapter descriptor of the Chapters stage
(`Chapter(title=..., summary=..., ...)` built from `chapter_data.get`). -/
def buildChapter (idx : Nat) (data : Json) : Chapter :=
  { title := data.getStrD "title" ("第" ++ toString (idx + 1) ++ "章"),
    summary := data.getStrD "summary" "",
    key_events := data.getStrListD "key_events",
    characters_involved := data.getStrListD "characters_involved",
    estimated_words := data.getIntD "estimated_words" 3000 }

/-- `NovelWriterCore.divide_chapters`: on a truthy result carrying a
`chapters` list, rebuild and wholesale-replace `project.chapters`;
otherwise return `[]` leaving the project untouched. -/
def divide_chapters (p : NovelProject) (result : Json) : StageOut (List Chapter) :=
  if result.pyTruthy then
    match result.lookup "chapters" with
    | some (.arr items) =>
      if items.all Json.isObjB then
        let chapters := items.enum.map fun pair => buildChapter pair.1 pair.2
        { project := { p with chapters := chapters }, result := .ok chapters, llmCalls := 1 }
      else { project := p, result := .error .typeError, llmCalls := 1 }
    | some _ => { project := p, result := .error .typeError, llmCalls := 1 }
    | none => { project := p, result := .ok [], llmCalls := 1 }
  else { project := p, result := .ok [], llmCalls := 1 }

/-- Replace chapter `k` (a resolved, in-range index) via `f`. -/
def updateChapterAt (p : NovelProject) (k : Nat) (f : Chapter → Chapter) : NovelProject :=
  match p.chapters.get? k with
  | some c => { p with chapters := p.chapters.set k (f c) }
  | none => p

/-- `NovelWriterCore.generate_chapter_outline`: range-guard first (before
the LLM call), then store `result["outline"]` on the addressed chapter. -/
def generate_chapter_outline (p : NovelProject) (chapterIndex : Int) (result : Json) :
    StageOut Json :=
  if (p.chapters.length : Int) ≤ chapterIndex then
    { project := p, result := .error (.valueError "章節索引超出範圍"), llmCalls := 0 }
  else
    match pyIdx p.chapters.length chapterIndex with
    | none => { project := p, result := .error .indexError, llmCalls := 0 }
    | some k =>
      if result.pyTruthy then
        match result.lookup "outline" with
        | some o =>
          { project := updateChapterAt p k fun c => { c with outline := o },
            result := .ok o, llmCalls := 1 }
        | none => { project := p, result := .ok (.obj []), llmCalls := 1 }
      else { project := p, result := .ok (.obj []), llmCalls := 1 }

/-- One paragraph descriptor of the Paragraphs stage. -/
def buildParagraph (data : Json) : Paragraph :=
  { order := data.getIntD "order" 0,
    purpose := data.getStrD "purpose" "",
    content_type := data.getStrD "content_type" "",
    key_points := data.getStrListD "key_points",
    estimated_words := data.getIntD "estimated_words" 0,
    mood := data.getStrD "mood" "" }

/-- `NovelWriterCore.divide_paragraphs`: range-guard first, then on a
truthy result carrying a `paragraphs` list, rebuild and
wholesale-replace that chapter's paragraph list; otherwise return `[]`
leaving the chapter untouched. -/
def divide_paragraphs (p : NovelProject) (chapterIndex : Int) (result : Json) :
    StageOut (List Paragraph) :=
  if (p.chapters.length : Int) ≤ chapterIndex then
    { project := p, result := .error (.valueError "章節索引超出範圍"), llmCalls := 0 }
  else
    match pyIdx p.chapters.length chapterIndex with
    | none => { project := p, result := .error .indexError, llmCalls := 0 }
    | some k =>
      if result.pyTruthy then
        match result.lookup "paragraphs" with
        | some (.arr items) =>
          if items.all Json.isObjB then
            let paragraphs := items.map buildParagraph
            { project := updateChapterAt p k fun c => { c with paragraphs := paragraphs },
              result := .ok paragraphs, llmCalls := 1 }
          else { project := p, result := .error .typeError, llmCalls := 1 }
        | some _ => { project := p, result := .error .typeError, llmCalls := 1 }
        | none => { project := p, result := .ok [], llmCalls := 1 }
      else { project := p, result := .ok [], llmCalls := 1 }

/-- `NovelWriterCore._ensure_chapter_plot_area`: on a chapter index not
yet tracked, reset the accumulation buffer and create that chapter's
`ChapterPlotSummary` slot.  (For an index below `-len` Python's title
lookup would raise; that point is unreachable from the modelled flows,
which resolve the index first.) -/
def ensure_chapter_plot_area (p : NovelProject) (chapterIndex : Option Int) : NovelProject :=
  match chapterIndex with
  | none => p
  | some ci =>
    let world := p.world_building
    if (world.chapter_plot_summaries.lookup ci).isSome then p
    else
      let chapterTitle :=
        if ci < (p.chapters.length : Int) then
          match pyGet p.chapters ci with
          | some c => c.title
          | none => ""
        else ""
      { p with
        world_building :=
          { world with
            current_chapter_plot_points := [],
            chapter_plot_summaries :=
              iassocSet world.chapter_plot_summaries ci
                { chapter_index := ci, chapter_title := chapterTitle } } }

/-- One pure-add step: insert `{"name": ..., "desc": ...}` only when the
name is non-empty and not already a key. -/
def addIfAbsent (m : List (String × String)) (item : Json) : List (String × String) :=
  let name := item.getStrD "name" ""
  let desc := item.getStrD "desc" ""
  if name ≠ "" && (m.lookup name).isNone then m ++ [(name, desc)] else m

/-- Append a plot point unless already present (`plot not in list`). -/
def addPlotPoint (pts : List String) (plot : String) : List String :=
  if pts.contains plot then pts else pts ++ [plot]

/-- `NovelWriterCore._update_world_building_from_content`: ensure the
chapter plot area, then pure-add the proposed characters / settings /
terminology and append the new plot points to both the global list and
the current-chapter buffer.  `result = none` models the extraction call
raising — the surrounding `try` logs and keeps the state. -/
def update_world_building_from_content (p : NovelProject) (chapterIndex : Option Int)
    (result : Option Json) : NovelProject :=
  let p := ensure_chapter_plot_area p chapterIndex
  match result with
  | none => p
  | some r =>
    if r.pyTruthy then
      let world := p.world_building
      let chars := (r.getArrD "new_characters").foldl addIfAbsent world.characters
      let settings := (r.getArrD "new_settings").foldl addIfAbsent world.settings
      let terms := (r.getArrD "new_terms").foldl addIfAbsent world.terminology
      let plots := (r.getStrListD "detailed_plot_points").filter fun s => s ≠ ""
      let plot_points := plots.foldl addPlotPoint world.plot_points
      let current := plots.foldl addPlotPoint world.current_chapter_plot_points
      { p with
        world_building :=
          { world with
            characters := chars, settings := settings, terminology := terms,
            plot_points := plot_points, current_chapter_plot_points := current } }
    else p

structure CheckOut where
  project : NovelProject
  completed : Bool
  consolidationTriggered : Bool

/-- `NovelWriterCore.check_chapter_completion`: count the completed
paragraphs; when all are completed and there is at least one, mark the
chapter Completed and report whether the consolidation pass would fire
(first completion only).  The consolidation itself runs on a background
thread in the source and is modelled separately
(`consolidate_chapter_plot_points`). -/
def check_chapter_completion (p : NovelProject) (chapterIndex : Int)
    (triggerConsolidation : Bool := true) : CheckOut :=
  if (p.chapters.length : Int) ≤ chapterIndex then ⟨p, false, false⟩
  else
    match pyIdx p.chapters.length chapterIndex with
    | none => ⟨p, false, false⟩
    | some k =>
      match p.chapters.get? k with
      | none => ⟨p, false, false⟩
      | some chapter =>
        let completedParagraphs :=
          chapter.paragraphs.countP fun q => q.status == CreationStatus.completed
        let totalParagraphs := chapter.paragraphs.length
        if completedParagraphs = totalParagraphs ∧ 0 < totalParagraphs then
          let wasAlreadyCompleted := chapter.status == CreationStatus.completed
          let p' := { p with chapters := p.chapters.set k { chapter with status := .completed } }
          ⟨p', true, !wasAlreadyCompleted && triggerConsolidation⟩
        else ⟨p, false, false⟩

/-- `NovelWriterCore.write_paragraph`: range-guard both indices (before
the LLM call), then on a truthy result carrying `content`, store the
formatted text, mark the paragraph Completed, run the world-building
ingestion (a second LLM call, `wbResult` its parsed response) and the
chapter-completion check.  The text formatter is the out-of-scope
cosmetic collaborator and is passed in as `fmt`; the source's
`TextFormatter.format_novel_content` returns its argument unchanged when
it is empty (`if not content: return content`). -/
def write_paragraph (fmt : String → String) (p : NovelProject)
    (chapterIndex paragraphIndex : Int) (result : Json) (wbResult : Option Json) :
    StageOut String :=
  if (p.chapters.length : Int) ≤ chapterIndex then
    { project := p, result := .error (.valueError "章節索引超出範圍"), llmCalls := 0 }
  else
    match pyIdx p.chapters.length chapterIndex with
    | none => { project := p, result := .error .indexError, llmCalls := 0 }
    | some k =>
      match p.chapters.get? k with
      | none => { project := p, result := .error .indexError, llmCalls := 0 }
      | some chapter =>
        if (chapter.paragraphs.length : Int) ≤ paragraphIndex then
          { project := p, result := .error (.valueError "段落索引超出範圍"), llmCalls := 0 }
        else
          match pyIdx chapter.paragraphs.length paragraphIndex with
          | none => { project := p, result := .error .indexError, llmCalls := 0 }
          | some l =>
            match chapter.paragraphs.get? l with
            | none => { project := p, result := .error .indexError, llmCalls := 0 }
            | some paragraph =>
              if result.pyTruthy then
                match result.lookup "content" with
                | some (.str rawContent) =>
                  let formatted := fmt rawContent
                  let paragraph' :=
                    { paragraph with
                      content := formatted,
                      word_count := result.getIntD "word_count" (formatted.length : Int),
                      status := .completed }
                  let p1 :=
                    { p with
                      chapters := p.chapters.set k
                        { chapter with paragraphs := chapter.paragraphs.set l paragraph' } }
                  let p2 := update_world_building_from_content p1 (some chapterIndex) wbResult
                  let p3 := (check_chapter_completion p2 chapterIndex).project
                  { project := p3, result := .ok formatted, llmCalls := 2 }
                | some _ =>
                  { project := p, result := .error .typeError, llmCalls := 1 }
                | none => { project := p, result := .ok "", llmCalls := 1 }
              else { project := p, result := .ok "", llmCalls := 1 }

/-- The chapter tag `f"【第{chapter_index+1}章】"`. -/
def chapterTag (chapterIndex : Int) : String :=
  "【第" ++ toString (chapterIndex + 1) ++ "章】"

/-- Python `s.startswith(pre)`. -/
def pyStartsWith (s pre : String) : Bool :=
  pre.data.isPrefixOf s.data

/-- `NovelWriterCore._consolidate_chapter_plot_points` (the third
consolidation sub-pass): on a successful reduction, re-insert the tagged
reduced points into the global list, first filtering out every entry
already tagged with this chapter.  Early-outs: no summary slot for the
chapter, or an empty chapter-scoped point list.  `result = none` models
the LLM call raising — the surrounding `try` logs and keeps the state. -/
def consolidate_chapter_plot_points (p : NovelProject) (chapterIndex : Int)
    (result : Option Json) : NovelProject :=
  let world := p.world_building
  match world.chapter_plot_summaries.lookup chapterIndex with
  | none => p
  | some chapterSummary =>
    if chapterSummary.plot_points.isEmpty then p
    else
      match result with
      | none => p
      | some r =>
        if r.pyTruthy then
          let consolidatedPoints := r.getStrListD "consolidated_plot_points"
          let tagged := consolidatedPoints.map fun point => chapterTag chapterIndex ++ point
          let existing := world.plot_points.filter fun plot =>
            !(pyStartsWith plot (chapterTag chapterIndex))
          { p with world_building := { world with plot_points := existing ++ tagged } }
        else p

/-! ## Serialization (`novel_writer/utils/serialization.py`)

`SerializationHelper.prepare_project_for_save` builds the persisted
snapshot dict: `asdict` on the dataclasses with every enum replaced by
its string value.  The `int` keys of `chapter_plot_summaries` are
rendered with `toString` (Python keeps them as `int` keys in the interim
dict; the JSON dump would stringify them the same way). -/

def statusToJson (s : CreationStatus) : Json := .str s.value

def paragraphToJson (q : Paragraph) : Json :=
  .obj [("order", .num q.order), ("purpose", .str q.purpose),
        ("content_type", .str q.content_type),
        ("key_points", .arr (q.key_points.map Json.str)),
        ("estimated_words", .num q.estimated_words), ("mood", .str q.mood),
        ("content", .str q.content), ("status", statusToJson q.status),
        ("word_count", .num q.word_count)]

def chapterToJson (c : Chapter) : Json :=
  .obj [("title", .str c.title), ("summary", .str c.summary),
        ("key_events", .arr (c.key_events.map Json.str)),
        ("characters_involved", .arr (c.characters_involved.map Json.str)),
        ("estimated_words", .num c.estimated_words), ("outline", c.outline),
        ("paragraphs", .arr (c.paragraphs.map paragraphToJson)),
        ("content", .str c.content), ("status", statusToJson c.status)]

def chapterPlotSummaryToJson (s : ChapterPlotSummary) : Json :=
  .obj [("chapter_index", .num s.chapter_index), ("chapter_title", .str s.chapter_title),
        ("plot_points", .arr (s.plot_points.map Json.str)), ("summary", .str s.summary),
        ("key_developments", .arr (s.key_developments.map Json.str)),
        ("characters_introduced", .arr (s.characters_introduced.map Json.str)),
        ("settings_introduced", .arr (s.settings_introduced.map Json.str))]

def worldBuildingToJson (w : WorldBuilding) : Json :=
  .obj [("characters", .obj (w.characters.map fun kv => (kv.1, Json.str kv.2))),
        ("settings", .obj (w.settings.map fun kv => (kv.1, Json.str kv.2))),
        ("terminology", .obj (w.terminology.map fun kv => (kv.1, Json.str kv.2))),
        ("plot_points", .arr (w.plot_points.map Json.str)),
        ("relationships", .arr w.relationships),
        ("style_guide", .str w.style_guide),
        ("chapter_notes", .arr (w.chapter_notes.map Json.str)),
        ("chapter_plot_summaries",
          .obj (w.chapter_plot_summaries.map fun kv =>
            (toString kv.1, chapterPlotSummaryToJson kv.2))),
        ("current_chapter_plot_points", .arr (w.current_chapter_plot_points.map Json.str))]

def globalConfigToJson (g : GlobalWritingConfig) : Json :=
  .obj [("writing_style", .str g.writing_style.value),
        ("pacing_style", .str g.pacing_style.value), ("tone", .str g.tone),
        ("continuous_themes", .arr (g.continuous_themes.map Json.str)),
        ("must_include_elements", .arr (g.must_include_elements.map Json.str)),
        ("avoid_elements", .arr (g.avoid_elements.map Json.str)),
        ("target_chapter_words", .num g.target_chapter_words),
        ("target_paragraph_words", .num g.target_paragraph_words),
        ("paragraph_count_preference", .str g.paragraph_count_preference),
        ("dialogue_style", .str g.dialogue_style),
        ("description_density", .str g.description_density),
        ("emotional_intensity", .str g.emotional_intensity),
        ("global_instructions", .str g.global_instructions)]

/-- `SerializationHelper.prepare_project_for_save`: the persisted project
snapshot.  It reads title, theme, outline, the additional prompts, the
current context, the chapters, the world building and the global config —
and nothing else; in particular `api_config` is never consulted. -/
def prepare_project_for_save (p : NovelProject) : Json :=
  .obj [("title", .str p.title), ("theme", .str p.theme), ("outline", .str p.outline),
        ("outline_additional_prompt", .str p.outline_additional_prompt),
        ("chapters_additional_prompt", .str p.chapters_additional_prompt),
        ("current_context", .str p.current_context),
        ("chapters", .arr (p.chapters.map chapterToJson)),
        ("world_building", worldBuildingToJson p.world_building),
        ("global_config", globalConfigToJson p.global_config)]

/-! ## Helper lemmas -/

theorem pyIdx_lt {len : Nat} {i : Int} {k : Nat} (h : pyIdx len i = some k) : k < len := by
  unfold pyIdx at h
  split at h
  · split at h
    · injection h with h'
      omega
    · exact absurd h (by simp)
  · split at h
    · injection h with h'
      omega
    · exact absurd h (by simp)

theorem pyIdx_not_le {len : Nat} {i : Int} {k : Nat} (h : pyIdx len i = some k) :
    ¬ (len : Int) ≤ i := by
  unfold pyIdx at h
  split at h
  · split at h
    · omega
    · exact absurd h (by simp)
  · split at h
    · omega
    · exact absurd h (by simp)

theorem pyIdx_none_of_lt_neg {len : Nat} {i : Int} (h : i < -(len : Int)) :
    pyIdx len i = none := by
  unfold pyIdx
  rw [if_neg (by omega), if_neg (by omega)]

theorem get?_of_lt {α : Type} {l : List α} {k : Nat} (h : k < l.length) :
    ∃ a, l.get? k = some a := by
  rw [List.get?_eq_getElem?]
  exact ⟨l[k], List.getElem?_eq_some_iff.mpr ⟨h, rfl⟩⟩

/-! ## Claim C1 -/

def chapterA : Chapter := { title := "第一章", summary := "開端" }

def paragraphA : Paragraph := { order := 1, purpose := "開場" }

def projOneChapter : NovelProject := { title := "書", chapters := [chapterA] }

def projWithParagraph : NovelProject :=
  { title := "書", chapters := [{ chapterA with paragraphs := [paragraphA] }] }

/-- C1 counterexample: a well-formed `{"chapters": []}` response makes
`divide_chapters` replace a previously non-empty chapter list with the
empty list, and a well-formed `{"paragraphs": []}` response makes
`divide_paragraphs` replace a previously non-empty paragraph list with
the empty list — the previous content is not left unchanged. -/
theorem c1_counterexample :
    (divide_chapters projOneChapter (.obj [("chapters", .arr [])])).project.chapters.length = 0 ∧
    projOneChapter.chapters.length = 1 ∧
    ((divide_paragraphs projWithParagraph 0 (.obj [("paragraphs", .arr [])])).project.chapters.map
        fun c => c.paragraphs.length) = [0] ∧
    (projWithParagraph.chapters.map fun c => c.paragraphs.length) = [1] :=
  ⟨rfl, rfl, rfl, rfl⟩

/-- C1 (amended): a syntactically valid response whose `chapters` (resp.
`paragraphs`) list is empty is applied destructively — the stored list is
replaced by the empty list and `[]` is returned; only a well-formed
response that lacks the expected key is the soft-failure path that leaves
the content tree untouched and returns `[]`. -/
theorem c1_empty_list_replaces :
    (∀ p : NovelProject,
        (divide_chapters p (.obj [("chapters", .arr [])])).project.chapters = [] ∧
        (divide_chapters p (.obj [("chapters", .arr [])])).result = .ok []) ∧
    (∀ (p : NovelProject) (res : Json), res.pyTruthy = true → res.lookup "chapters" = none →
        divide_chapters p res = ⟨p, .ok [], 1⟩) ∧
    (∀ (p : NovelProject) (i : Int) (k : Nat), pyIdx p.chapters.length i = some k →
        ((divide_paragraphs p i (.obj [("paragraphs", .arr [])])).project.chapters.get? k).map
            Chapter.paragraphs = some [] ∧
        (divide_paragraphs p i (.obj [("paragraphs", .arr [])])).result = .ok []) ∧
    (∀ (p : NovelProject) (i : Int) (k : Nat) (res : Json), pyIdx p.chapters.length i = some k →
        res.pyTruthy = true → res.lookup "paragraphs" = none →
        divide_paragraphs p i res = ⟨p, .ok [], 1⟩) := by
  refine ⟨fun p => ⟨rfl, rfl⟩, ?_, ?_, ?_⟩
  · intro p res htr hlk
    unfold divide_chapters
    rw [htr, hlk]
    rfl
  · intro p i k hk
    obtain ⟨c, hc⟩ := get?_of_lt (pyIdx_lt hk)
    have hres : divide_paragraphs p i (.obj [("paragraphs", .arr [])]) =
        { project := updateChapterAt p k fun ch => { ch with paragraphs := [] },
          result := .ok [], llmCalls := 1 } := by
      unfold divide_paragraphs
      rw [if_neg (pyIdx_not_le hk), hk]
      rfl
    refine ⟨?_, by rw [hres]⟩
    rw [hres]
    simp only [updateChapterAt, hc]
    rw [List.get?_eq_getElem?, List.getElem?_set_eq_of_lt _ (pyIdx_lt hk)]
    rfl
  · intro p i k res hk htr hlk
    unfold divide_paragraphs
    rw [if_neg (pyIdx_not_le hk), hk, htr, hlk]
    rfl

/-- C1 witness: the amended statement evaluated at the one-chapter
sample project. -/
theorem c1_witness :
    (((divide_paragraphs projWithParagraph 0 (.obj [("paragraphs", .arr [])])).project.chapters.get?
        0).map Chapter.paragraphs = some []) ∧
    divide_chapters projOneChapter (.obj [("note", .num 1)]) = ⟨projOneChapter, .ok [], 1⟩ := by
  refine ⟨(c1_empty_list_replaces.2.2.1 projWithParagraph 0 0 rfl).1, ?_⟩
  exact c1_empty_list_replaces.2.1 projOneChapter _ rfl rfl

/-! ## Claim C10 -/

/-- Claim C10: the persisted snapshot built by `prepare_project_for_save`
never consults the API configuration — two projects differing only in
`api_config` (api key, base url, model, ...) produce identical
snapshots — and the snapshot's key set has no credential field. -/
theorem c10_snapshot_independent_of_api_config :
    (∀ (p : NovelProject) (cfg : APIConfig),
        prepare_project_for_save { p with api_config := cfg } = prepare_project_for_save p) ∧
    (∀ p : NovelProject, ∃ members,
        prepare_project_for_save p = Json.obj members ∧
        members.map Prod.fst =
          ["title", "theme", "outline", "outline_additional_prompt",
           "chapters_additional_prompt", "current_context", "chapters",
           "world_building", "global_config"]) :=
  ⟨fun _ _ => rfl, fun _ => ⟨_, rfl, rfl⟩⟩

/-! ## Chapter-preservation lemmas -/

theorem ensure_area_chapters (p : NovelProject) (ci : Option Int) :
    (ensure_chapter_plot_area p ci).chapters = p.chapters := by
  unfold ensure_chapter_plot_area
  cases ci with
  | none => rfl
  | some c =>
    dsimp only
    split
    · rfl
    · rfl

theorem update_wb_chapters (p : NovelProject) (ci : Option Int) (r : Option Json) :
    (update_world_building_from_content p ci r).chapters = p.chapters := by
  unfold update_world_building_from_content
  cases r with
  | none => exact ensure_area_chapters p ci
  | some j =>
    dsimp only
    split
    · exact ensure_area_chapters p ci
    · exact ensure_area_chapters p ci

theorem check_preserves_paragraphs (p : NovelProject) (i : Int) (t : Bool) (n : Nat) :
    ((check_chapter_completion p i t).project.chapters.get? n).map Chapter.paragraphs =
      (p.chapters.get? n).map Chapter.paragraphs := by
  unfold check_chapter_completion
  split
  · rfl
  · split
    · rfl
    · rename_i k _
      split
      · rfl
      · rename_i chapter hc
        dsimp only
        split
        · have hklt : k < p.chapters.length := by
            rw [List.get?_eq_getElem?] at hc
            exact (List.getElem?_eq_some_iff.mp hc).1
          by_cases hnk : k = n
          · subst hnk
            rw [List.get?_eq_getElem?, List.getElem?_set_eq_of_lt _ hklt, hc]
            rfl
          · rw [List.get?_eq_getElem?, List.getElem?_set_ne hnk, ← List.get?_eq_getElem?]
        · rfl

/-- The success path of `write_paragraph`, as one equation: with valid
indices and a truthy result carrying a string `content`, the call stores
the formatted content on the addressed paragraph, marks it Completed,
then runs the world-building ingestion and the completion check. -/
theorem write_paragraph_success (fmt : String → String) (p : NovelProject) (i j : Int)
    (k l : Nat) (chapter : Chapter) (paragraph : Paragraph) (res : Json) (wb : Option Json)
    (raw : String)
    (hk : pyIdx p.chapters.length i = some k) (hc : p.chapters.get? k = some chapter)
    (hl : pyIdx chapter.paragraphs.length j = some l)
    (hq : chapter.paragraphs.get? l = some paragraph)
    (htr : res.pyTruthy = true) (hct : res.lookup "content" = some (.str raw)) :
    write_paragraph fmt p i j res wb =
      { project :=
          (check_chapter_completion
            (update_world_building_from_content
              { p with
                chapters := p.chapters.set k
                  { chapter with
                    paragraphs := chapter.paragraphs.set l
                      { paragraph with
                        content := fmt raw,
                        word_count := res.getIntD "word_count" ((fmt raw).length : Int),
                        status := .completed } } }
              (some i) wb) i).project,
        result := .ok (fmt raw), llmCalls := 2 } := by
  simp only [write_paragraph, if_neg (pyIdx_not_le hk), hk, hc, if_neg (pyIdx_not_le hl), hl,
    hq, htr, hct, if_true]

/-! ## Claim C2 -/

/-- C2 counterexample: on the one-paragraph sample project, a well-formed
response `{"content": ""}` marks the paragraph Completed while its stored
content is empty (the source's formatter returns an empty string
unchanged, so the identity formatter agrees with it at this input). -/
theorem c2_counterexample :
    ((write_paragraph id projWithParagraph 0 0 (.obj [("content", .str "")])
        (some (.obj [("note", .num 1)]))).project.chapters.map fun c =>
      c.paragraphs.map fun q => (q.status, q.content)) =
      [[(CreationStatus.completed, "")]] ∧
    (write_paragraph id projWithParagraph 0 0 (.obj [("content", .str "")])
        (some (.obj [("note", .num 1)]))).result = .ok "" :=
  ⟨rfl, rfl⟩

/-- C2 (amended): `write_paragraph` marks the addressed paragraph
Completed exactly when the truthy parsed response carries a `content`
key; the stored content is the formatted raw value — which may be empty,
so Completed-with-empty-content is reachable.  A truthy response without
the key is the soft-failure path returning `""` with the project
unchanged. -/
theorem c2_completed_iff_content_key (fmt : String → String) (p : NovelProject) (i j : Int)
    (k l : Nat) (chapter : Chapter) (paragraph : Paragraph) (res : Json) (wb : Option Json)
    (raw : String)
    (hk : pyIdx p.chapters.length i = some k) (hc : p.chapters.get? k = some chapter)
    (hl : pyIdx chapter.paragraphs.length j = some l)
    (hq : chapter.paragraphs.get? l = some paragraph)
    (htr : res.pyTruthy = true) (hct : res.lookup "content" = some (.str raw)) :
    (∃ c', (write_paragraph fmt p i j res wb).project.chapters.get? k = some c' ∧
        ∃ q', c'.paragraphs.get? l = some q' ∧
          q'.status = .completed ∧ q'.content = fmt raw) ∧
    (∀ (res' : Json) (wb' : Option Json), res'.pyTruthy = true →
        res'.lookup "content" = none →
        write_paragraph fmt p i j res' wb' = ⟨p, .ok "", 1⟩) := by
  constructor
  · rw [write_paragraph_success fmt p i j k l chapter paragraph res wb raw hk hc hl hq htr hct]
    have hklt : k < p.chapters.length := pyIdx_lt hk
    have hllt : l < chapter.paragraphs.length := pyIdx_lt hl
    set q' : Paragraph :=
      { paragraph with
        content := fmt raw,
        word_count := res.getIntD "word_count" ((fmt raw).length : Int),
        status := .completed } with hq'
    set c1 : Chapter := { chapter with paragraphs := chapter.paragraphs.set l q' } with hc1
    have hp1 : (p.chapters.set k c1).get? k = some c1 := by
      rw [List.get?_eq_getElem?]
      exact List.getElem?_set_eq_of_lt _ hklt
    have hmap :
        (((check_chapter_completion
            (update_world_building_from_content { p with chapters := p.chapters.set k c1 }
              (some i) wb) i).project.chapters.get? k).map Chapter.paragraphs) =
          some c1.paragraphs := by
      rw [check_preserves_paragraphs, update_wb_chapters]
      dsimp only
      rw [hp1]
      rfl
    obtain ⟨c', hc', hcp⟩ :
        ∃ c', (check_chapter_completion
            (update_world_building_from_content { p with chapters := p.chapters.set k c1 }
              (some i) wb) i).project.chapters.get? k = some c' ∧
          c'.paragraphs = c1.paragraphs := by
      cases hg : (check_chapter_completion
          (update_world_building_from_content { p with chapters := p.chapters.set k c1 }
            (some i) wb) i).project.chapters.get? k with
      | none => rw [hg] at hmap; exact absurd hmap (by simp)
      | some c' =>
        rw [hg] at hmap
        exact ⟨c', rfl, by injection hmap⟩
    refine ⟨c', hc', q', ?_, rfl, rfl⟩
    rw [hcp, hc1]
    dsimp only
    rw [List.get?_eq_getElem?]
    exact List.getElem?_set_eq_of_lt _ hllt
  · intro res' wb' htr' hlk'
    simp only [write_paragraph, if_neg (pyIdx_not_le hk), hk, hc, if_neg (pyIdx_not_le hl), hl,
      hq, htr', hlk', if_true]

/-- C2 witness: the amended statement evaluated on the one-paragraph
sample project with the empty-content response. -/
theorem c2_witness :
    (∃ c', (write_paragraph id projWithParagraph 0 0 (.obj [("content", .str "")])
        (some (.obj [("note", .num 1)]))).project.chapters.get? 0 = some c' ∧
      ∃ q', c'.paragraphs.get? 0 = some q' ∧
        q'.status = .completed ∧ q'.content = id "") ∧
    write_paragraph id projWithParagraph 0 0 (.obj [("other", .num 2)])
        (some (.obj [("note", .num 1)])) = ⟨projWithParagraph, .ok "", 1⟩ := by
  have h := c2_completed_iff_content_key id projWithParagraph 0 0 0 0
    { chapterA with paragraphs := [paragraphA] } paragraphA
    (.obj [("content", .str "")]) (some (.obj [("note", .num 1)])) ""
    rfl rfl rfl rfl rfl rfl
  exact ⟨h.1, h.2 (.obj [("other", .num 2)]) (some (.obj [("note", .num 1)])) rfl rfl⟩

/-! ## Claim C9 -/

/-- C9 counterexample: stage index `-1` on a one-chapter project is not
rejected — `generate_chapter_outline` wraps to the last chapter and
proceeds to the LLM call (`llmCalls = 1`, success), instead of failing
with an index-range error before any network interaction. -/
theorem c9_counterexample :
    (generate_chapter_outline projOneChapter (-1) (.obj [("outline", .str "o")])).llmCalls = 1 ∧
    (generate_chapter_outline projOneChapter (-1) (.obj [("outline", .str "o")])).result =
      .ok (.str "o") :=
  ⟨rfl, rfl⟩

/-- C9 (amended): a chapter index `≥ len` fails with the range
`ValueError` and a chapter index `< -len` fails with `IndexError`, both
before any LLM call (`llmCalls = 0`) and with the project unchanged — for
`generate_chapter_outline`, `divide_paragraphs` and `write_paragraph`
(likewise for the paragraph index) — while indices in `[-len, -1]` are
accepted and wrap to address an existing chapter (Python indexing),
proceeding to the LLM call. -/
theorem c9_range_guards :
    (∀ (p : NovelProject) (i : Int) (res : Json), (p.chapters.length : Int) ≤ i →
        generate_chapter_outline p i res = ⟨p, .error (.valueError "章節索引超出範圍"), 0⟩) ∧
    (∀ (p : NovelProject) (i : Int) (res : Json), i < -(p.chapters.length : Int) →
        generate_chapter_outline p i res = ⟨p, .error .indexError, 0⟩) ∧
    (∀ (p : NovelProject) (i : Int) (res : Json), (p.chapters.length : Int) ≤ i →
        divide_paragraphs p i res = ⟨p, .error (.valueError "章節索引超出範圍"), 0⟩) ∧
    (∀ (p : NovelProject) (i : Int) (res : Json), i < -(p.chapters.length : Int) →
        divide_paragraphs p i res = ⟨p, .error .indexError, 0⟩) ∧
    (∀ (fmt : String → String) (p : NovelProject) (i j : Int) (res : Json) (wb : Option Json),
        (p.chapters.length : Int) ≤ i →
        write_paragraph fmt p i j res wb = ⟨p, .error (.valueError "章節索引超出範圍"), 0⟩) ∧
    (∀ (fmt : String → String) (p : NovelProject) (i j : Int) (res : Json) (wb : Option Json),
        i < -(p.chapters.length : Int) →
        write_paragraph fmt p i j res wb = ⟨p, .error .indexError, 0⟩) ∧
    (∀ (fmt : String → String) (p : NovelProject) (i j : Int) (k : Nat) (chapter : Chapter)
        (res : Json) (wb : Option Json),
        pyIdx p.chapters.length i = some k → p.chapters.get? k = some chapter →
        (chapter.paragraphs.length : Int) ≤ j →
        write_paragraph fmt p i j res wb = ⟨p, .error (.valueError "段落索引超出範圍"), 0⟩) ∧
    (∀ (fmt : String → String) (p : NovelProject) (i j : Int) (k : Nat) (chapter : Chapter)
        (res : Json) (wb : Option Json),
        pyIdx p.chapters.length i = some k → p.chapters.get? k = some chapter →
        j < -(chapter.paragraphs.length : Int) →
        write_paragraph fmt p i j res wb = ⟨p, .error .indexError, 0⟩) := by
  refine ⟨?_, ?_, ?_, ?_, ?_, ?_, ?_, ?_⟩
  · intro p i res h
    unfold generate_chapter_outline
    rw [if_pos h]
  · intro p i res h
    unfold generate_chapter_outline
    rw [if_neg (by omega : ¬ (p.chapters.length : Int) ≤ i), pyIdx_none_of_lt_neg h]
  · intro p i res h
    unfold divide_paragraphs
    rw [if_pos h]
  · intro p i res h
    unfold divide_paragraphs
    rw [if_neg (by omega : ¬ (p.chapters.length : Int) ≤ i), pyIdx_none_of_lt_neg h]
  · intro fmt p i j res wb h
    unfold write_paragraph
    rw [if_pos h]
  · intro fmt p i j res wb h
    unfold write_paragraph
    rw [if_neg (by omega : ¬ (p.chapters.length : Int) ≤ i), pyIdx_none_of_lt_neg h]
  · intro fmt p i j k chapter res wb hk hc hj
    simp only [write_paragraph, if_neg (pyIdx_not_le hk), hk, hc, if_pos hj]
  · intro fmt p i j k chapter res wb hk hc hj
    simp only [write_paragraph, if_neg (pyIdx_not_le hk), hk, hc,
      if_neg (by omega : ¬ (chapter.paragraphs.length : Int) ≤ j), pyIdx_none_of_lt_neg hj]

/-- C9 witness: the guards evaluated at the sample projects, with an
over-range index, an under-range index, and over/under-range paragraph
indices. -/
theorem c9_witness :
    generate_chapter_outline projOneChapter 5 (.obj [("outline", .str "o")]) =
      ⟨projOneChapter, .error (.valueError "章節索引超出範圍"), 0⟩ ∧
    generate_chapter_outline projOneChapter (-2) (.obj [("outline", .str "o")]) =
      ⟨projOneChapter, .error .indexError, 0⟩ ∧
    divide_paragraphs projOneChapter 3 (.obj [("paragraphs", .arr [])]) =
      ⟨projOneChapter, .error (.valueError "章節索引超出範圍"), 0⟩ ∧
    write_paragraph id projWithParagraph 0 7 (.obj [("content", .str "x")]) none =
      ⟨projWithParagraph, .error (.valueError "段落索引超出範圍"), 0⟩ ∧
    write_paragraph id projWithParagraph 0 (-9) (.obj [("content", .str "x")]) none =
      ⟨projWithParagraph, .error .indexError, 0⟩ := by
  refine ⟨?_, ?_, ?_, ?_, ?_⟩
  · exact c9_range_guards.1 projOneChapter 5 _ (by decide)
  · exact c9_range_guards.2.1 projOneChapter (-2) _ (by decide)
  · exact c9_range_guards.2.2.1 projOneChapter 3 _ (by decide)
  · exact c9_range_guards.2.2.2.2.2.2.1 id projWithParagraph 0 7 0
      { chapterA with paragraphs := [paragraphA] } _ none rfl rfl (by decide)
  · exact c9_range_guards.2.2.2.2.2.2.2 id projWithParagraph 0 (-9) 0
      { chapterA with paragraphs := [paragraphA] } _ none rfl rfl (by decide)

/-! ## Claim C6 -/

def c6AfterWrite : NovelProject :=
  (write_paragraph id projWithParagraph 0 0 (.obj [("content", .str "完")])
    (some (.obj [("note", .num 1)]))).project

def c6AfterDivide : NovelProject :=
  (divide_paragraphs c6AfterWrite 0
    (.obj [("paragraphs", .arr [.obj [("order", .num 1), ("purpose", .str "新")]])])).project

/-- C6 counterexample: after a chapter completes (its single paragraph
written, `check_chapter_completion` marks it Completed), re-running
`divide_paragraphs` on it replaces the paragraphs with fresh NotStarted
ones but leaves the chapter status Completed — so `status = Completed`
does not imply all paragraphs are Completed across all orchestrator
operations. -/
theorem c6_counterexample :
    (c6AfterDivide.chapters.map fun c => (c.status, c.paragraphs.map Paragraph.status)) =
      [(CreationStatus.completed, [CreationStatus.notStarted])] :=
  rfl

/-- C6 (amended): the equivalence is re-established on every paragraph
completion — if chapter `k` satisfied the invariant before, then after a
successful `write_paragraph` the chapter's status is Completed iff its
paragraph list is non-empty and every paragraph is Completed
(`check_chapter_completion` recomputes it) — but it is not preserved by
every orchestrator operation: `divide_paragraphs` on an already-Completed
chapter leaves a stale Completed status (see the counterexample). -/
theorem c6_invariant_after_write (fmt : String → String) (p : NovelProject) (i j : Int)
    (k l : Nat) (chapter : Chapter) (paragraph : Paragraph) (res : Json) (wb : Option Json)
    (raw : String)
    (hk : pyIdx p.chapters.length i = some k) (hc : p.chapters.get? k = some chapter)
    (hl : pyIdx chapter.paragraphs.length j = some l)
    (hq : chapter.paragraphs.get? l = some paragraph)
    (htr : res.pyTruthy = true) (hct : res.lookup "content" = some (.str raw))
    (hinv : chapter.status = .completed →
        chapter.paragraphs ≠ [] ∧ ∀ q ∈ chapter.paragraphs, q.status = .completed) :
    ∃ c', (write_paragraph fmt p i j res wb).project.chapters.get? k = some c' ∧
      (c'.status = .completed ↔
        (c'.paragraphs ≠ [] ∧ ∀ q ∈ c'.paragraphs, q.status = .completed)) := by
  rw [write_paragraph_success fmt p i j k l chapter paragraph res wb raw hk hc hl hq htr hct]
  have hklt : k < p.chapters.length := pyIdx_lt hk
  set q' : Paragraph :=
    { paragraph with
      content := fmt raw,
      word_count := res.getIntD "word_count" ((fmt raw).length : Int),
      status := .completed } with hq'
  set c1 : Chapter := { chapter with paragraphs := chapter.paragraphs.set l q' } with hc1
  set p2 : NovelProject :=
    update_world_building_from_content { p with chapters := p.chapters.set k c1 } (some i) wb
    with hp2
  have hch2 : p2.chapters = p.chapters.set k c1 := update_wb_chapters _ _ _
  have hlen2 : p2.chapters.length = p.chapters.length := by
    rw [hch2, List.length_set]
  have hk2 : pyIdx p2.chapters.length i = some k := by rw [hlen2]; exact hk
  have hget2 : p2.chapters.get? k = some c1 := by
    rw [hch2, List.get?_eq_getElem?]
    exact List.getElem?_set_eq_of_lt _ hklt
  have hstat1 : c1.status = chapter.status := rfl
  have hpar1 : c1.paragraphs = chapter.paragraphs.set l q' := rfl
  simp only [check_chapter_completion, if_neg (pyIdx_not_le hk2), hk2, hget2]
  split
  · rename_i hcond
    refine ⟨{ c1 with status := .completed }, ?_, ?_⟩
    · dsimp only
      rw [List.get?_eq_getElem?]
      exact List.getElem?_set_eq_of_lt _ (by rw [hlen2]; exact hklt)
    · constructor
      · intro _
        refine ⟨List.length_pos.mp hcond.2, fun q hqm => ?_⟩
        have := List.countP_eq_length.mp hcond.1 q hqm
        simpa using this
      · intro _
        rfl
  · rename_i hcond
    refine ⟨c1, hget2, ?_⟩
    have hcond' : (List.countP (fun q => q.status == CreationStatus.completed) c1.paragraphs =
        c1.paragraphs.length ∧ 0 < c1.paragraphs.length) → False := fun hx => hcond hx
    constructor
    · intro hst
      rw [hstat1] at hst
      obtain ⟨hne, hall⟩ := hinv hst
      exfalso
      apply hcond'
      constructor
      · refine List.countP_eq_length.mpr fun q hqm => ?_
        rw [hpar1] at hqm
        rcases List.mem_or_eq_of_mem_set hqm with hmem | hrfl
        · simpa using hall q hmem
        · subst hrfl; rfl
      · rw [hpar1, List.length_set]
        exact List.length_pos.mpr hne
    · rintro ⟨hne, hall⟩
      exfalso
      apply hcond'
      exact ⟨List.countP_eq_length.mpr fun q hqm => by simpa using hall q hqm,
        List.length_pos.mpr hne⟩

/-- C6 witness: the amended statement evaluated on the one-paragraph
sample project. -/
theorem c6_witness :
    ∃ c', (write_paragraph id projWithParagraph 0 0 (.obj [("content", .str "完")])
        (some (.obj [("note", .num 1)]))).project.chapters.get? 0 = some c' ∧
      (c'.status = .completed ↔
        (c'.paragraphs ≠ [] ∧ ∀ q ∈ c'.paragraphs, q.status = .completed)) :=
  c6_invariant_after_write id projWithParagraph 0 0 0 0
    { chapterA with paragraphs := [paragraphA] } paragraphA
    (.obj [("content", .str "完")]) (some (.obj [("note", .num 1)])) "完"
    rfl rfl rfl rfl rfl rfl (fun h => nomatch h)

/-! ## Claim C3 -/

theorem lookup_append_left {β : Type} (k : String) (m₁ m₂ : List (String × β))
    (h : (m₁.lookup k).isSome) : (m₁ ++ m₂).lookup k = m₁.lookup k := by
  induction m₁ with
  | nil => simp [List.lookup] at h
  | cons a t ih =>
    obtain ⟨a1, a2⟩ := a
    rw [List.cons_append]
    by_cases hk : k = a1
    · subst hk
      simp [List.lookup]
    · have hbeq : (k == a1) = false := beq_eq_false_iff_ne.mpr hk
      simp only [List.lookup, hbeq] at h ⊢
      exact ih h

theorem lookup_addIfAbsent (m : List (String × String)) (item : Json) (k : String)
    (h : (m.lookup k).isSome) : (addIfAbsent m item).lookup k = m.lookup k := by
  unfold addIfAbsent
  dsimp only
  split
  · exact lookup_append_left k m _ h
  · rfl

theorem foldl_addIfAbsent (items : List Json) (m : List (String × String)) (k : String)
    (h : (m.lookup k).isSome) :
    (items.foldl addIfAbsent m).lookup k = m.lookup k := by
  induction items generalizing m with
  | nil => rfl
  | cons it ts ih =>
    rw [List.foldl_cons]
    have h1 : ((addIfAbsent m it).lookup k).isSome := by
      rw [lookup_addIfAbsent m it k h]
      exact h
    rw [ih _ h1, lookup_addIfAbsent m it k h]

theorem ensure_area_world_maps (p : NovelProject) (ci : Option Int) :
    (ensure_chapter_plot_area p ci).world_building.characters = p.world_building.characters ∧
    (ensure_chapter_plot_area p ci).world_building.settings = p.world_building.settings ∧
    (ensure_chapter_plot_area p ci).world_building.terminology = p.world_building.terminology := by
  unfold ensure_chapter_plot_area
  cases ci with
  | none => exact ⟨rfl, rfl, rfl⟩
  | some c =>
    dsimp only
    split
    · exact ⟨rfl, rfl, rfl⟩
    · exact ⟨rfl, rfl, rfl⟩

/-- Claim C3: the per-paragraph pure-add ingestion never changes the
value stored under an existing key of `characters`, `settings` or
`terminology`, whatever the model response proposes. -/
theorem c3_pure_add_preserves_existing (p : NovelProject) (ci : Option Int) (res : Option Json) :
    (∀ name, (p.world_building.characters.lookup name).isSome →
        (update_world_building_from_content p ci res).world_building.characters.lookup name =
          p.world_building.characters.lookup name) ∧
    (∀ name, (p.world_building.settings.lookup name).isSome →
        (update_world_building_from_content p ci res).world_building.settings.lookup name =
          p.world_building.settings.lookup name) ∧
    (∀ name, (p.world_building.terminology.lookup name).isSome →
        (update_world_building_from_content p ci res).world_building.terminology.lookup name =
          p.world_building.terminology.lookup name) := by
  obtain ⟨e1, e2, e3⟩ := ensure_area_world_maps p ci
  unfold update_world_building_from_content
  cases res with
  | none =>
    exact ⟨fun name _ => by rw [e1], fun name _ => by rw [e2], fun name _ => by rw [e3]⟩
  | some r =>
    dsimp only
    split
    · refine ⟨fun name h => ?_, fun name h => ?_, fun name h => ?_⟩
      · rw [foldl_addIfAbsent _ _ _ (by rw [e1]; exact h), e1]
      · rw [foldl_addIfAbsent _ _ _ (by rw [e2]; exact h), e2]
      · rw [foldl_addIfAbsent _ _ _ (by rw [e3]; exact h), e3]
    · exact ⟨fun name _ => by rw [e1], fun name _ => by rw [e2], fun name _ => by rw [e3]⟩

def c3Project : NovelProject :=
  { world_building := { characters := [("王", "勇敢的少年")] } }

def c3Res : Json :=
  .obj [("new_characters", .arr [.obj [("name", .str "王"), ("desc", .str "另一描述")]])]

/-- C3 witness: the spec scenario — an existing character `王` with a
response proposing it as new under a different description leaves the
stored entry unchanged. -/
theorem c3_witness :
    (update_world_building_from_content c3Project (some 0)
        (some c3Res)).world_building.characters.lookup "王" = some "勇敢的少年" := by
  have h := (c3_pure_add_preserves_existing c3Project (some 0) (some c3Res)).1 "王" rfl
  exact h.trans rfl

/-! ## Claim C8 -/

theorem isPrefixOf_append_self (l r : List Char) : l.isPrefixOf (l ++ r) = true := by
  rw [List.isPrefixOf_iff_prefix]
  exact List.prefix_append l r

theorem pyStartsWith_append (pre q : String) : pyStartsWith (pre ++ q) pre = true := by
  unfold pyStartsWith
  rw [String.data_append]
  exact isPrefixOf_append_self _ _

/-- Claim C8: after a successful chapter plot-point reduction, the global
list contains every reduced point tagged with the chapter, every entry
carrying this chapter's tag comes from the reduced points (old tagged
entries were removed, not appended to), and the entries without this
chapter's tag are exactly the previous ones in their original order. -/
theorem c8_plot_reduction (p : NovelProject) (i : Int) (cps : ChapterPlotSummary) (r : Json)
    (hsum : p.world_building.chapter_plot_summaries.lookup i = some cps)
    (hne : cps.plot_points.isEmpty = false)
    (htr : r.pyTruthy = true) :
    (∀ q ∈ r.getStrListD "consolidated_plot_points",
        (chapterTag i ++ q) ∈
          (consolidate_chapter_plot_points p i (some r)).world_building.plot_points) ∧
    (∀ s ∈ (consolidate_chapter_plot_points p i (some r)).world_building.plot_points,
        pyStartsWith s (chapterTag i) = true →
        ∃ q ∈ r.getStrListD "consolidated_plot_points", s = chapterTag i ++ q) ∧
    ((consolidate_chapter_plot_points p i (some r)).world_building.plot_points.filter
        (fun s => !pyStartsWith s (chapterTag i)) =
      p.world_building.plot_points.filter (fun s => !pyStartsWith s (chapterTag i))) := by
  have hres : consolidate_chapter_plot_points p i (some r) =
      { p with
        world_building :=
          { p.world_building with
            plot_points :=
              p.world_building.plot_points.filter
                  (fun plot => !pyStartsWith plot (chapterTag i)) ++
                (r.getStrListD "consolidated_plot_points").map
                  (fun point => chapterTag i ++ point) } } := by
    simp only [consolidate_chapter_plot_points, hsum, hne, htr, Bool.false_eq_true,
      if_false, if_true]
  rw [hres]
  dsimp only
  refine ⟨?_, ?_, ?_⟩
  · intro q hq
    exact List.mem_append_right _ (List.mem_map_of_mem _ hq)
  · intro s hs hpre
    rcases List.mem_append.mp hs with hsl | hsr
    · have hfl := List.of_mem_filter hsl
      rw [hpre] at hfl
      exact absurd hfl (by simp)
    · obtain ⟨q, hq, hrfl⟩ := List.mem_map.mp hsr
      exact ⟨q, hq, hrfl.symm⟩
  · rw [List.filter_append]
    have h2 : ((r.getStrListD "consolidated_plot_points").map
        (fun point => chapterTag i ++ point)).filter
          (fun s => !pyStartsWith s (chapterTag i)) = [] := by
      rw [List.filter_eq_nil_iff]
      intro a ha
      obtain ⟨q, _, hrfl⟩ := List.mem_map.mp ha
      subst hrfl
      simp [pyStartsWith_append]
    rw [h2, List.append_nil]
    simp [List.filter_filter]

def c8Project : NovelProject :=
  { world_building :=
      { plot_points := ["【第1章】舊點", "其他點"],
        chapter_plot_summaries :=
          [(0, { chapter_index := 0, chapter_title := "第一章", plot_points := ["甲", "乙"] })] } }

def c8Res : Json := .obj [("consolidated_plot_points", .arr [.str "核心"])]

/-- C8 witness: the reduction on the sample project replaces the old
`【第1章】` entry, keeps the untagged entry, and inserts the tagged
reduced point. -/
theorem c8_witness :
    (chapterTag 0 ++ "核心") ∈
      (consolidate_chapter_plot_points c8Project 0 (some c8Res)).world_building.plot_points ∧
    ((consolidate_chapter_plot_points c8Project 0 (some c8Res)).world_building.plot_points.filter
        (fun s => !pyStartsWith s (chapterTag 0)) =
      c8Project.world_building.plot_points.filter (fun s => !pyStartsWith s (chapterTag 0))) := by
  have h := c8_plot_reduction c8Project 0
    { chapter_index := 0, chapter_title := "第一章", plot_points := ["甲", "乙"] } c8Res rfl rfl rfl
  exact ⟨h.1 "核心" (List.mem_singleton.mpr rfl), h.2.2⟩

/-! ## Claim C5 -/

/-- The message lists the retry loop would send, starting from a given
attempt index and conversation: each next conversation is the enhanced
previous one. -/
def sentSeq (attempt : Nat) (msgs : List ChatMessage) : Nat → List (List ChatMessage)
  | 0 => []
  | r + 1 => msgs :: sentSeq (attempt + 1) (enhance_json_prompt msgs (attempt + 1)) r

theorem callLLMLoop_trace_isPrefix (api : Nat → List ChatMessage → Except String String) :
    ∀ (r attempt : Nat) (msgs : List ChatMessage) (trace : List (List ChatMessage)),
    (callLLMLoop api r attempt msgs trace).2 <+: trace ++ sentSeq attempt msgs r := by
  intro r
  induction r with
  | zero =>
    intro attempt msgs trace
    simp [callLLMLoop, sentSeq]
  | succ r ih =>
    intro attempt msgs trace
    show (callLLMLoop api (r + 1) attempt msgs trace).2 <+:
      trace ++ (msgs :: sentSeq (attempt + 1) (enhance_json_prompt msgs (attempt + 1)) r)
    unfold callLLMLoop
    cases api attempt msgs with
    | error e =>
      exact ⟨sentSeq (attempt + 1) (enhance_json_prompt msgs (attempt + 1)) r, by simp⟩
    | ok content =>
      dsimp only
      split
      · split
        · exact ⟨sentSeq (attempt + 1) (enhance_json_prompt msgs (attempt + 1)) r, by simp⟩
        · have h := ih (attempt + 1) (enhance_json_prompt msgs (attempt + 1)) (trace ++ [msgs])
          rw [List.append_assoc] at h
          simpa using h
      · split
        · exact ⟨sentSeq (attempt + 1) (enhance_json_prompt msgs (attempt + 1)) r, by simp⟩
        · exact ⟨sentSeq (attempt + 1) (enhance_json_prompt msgs (attempt + 1)) r, by simp⟩

/-- Claim C5: the retry loop (i) sends the unchanged `[system, user]`
conversation first and every later conversation is the enhancement of
the previous one, with at most `jsonRetryMax = 3` attempts; (ii) the
enhancement only appends the non-empty escalation suffix to the user
tail, leaving the system message unchanged; (iii) a transport failure is
re-raised immediately after one attempt; (iv) a run whose responses
parse only on attempt 3 returns the attempt-3 object, with the attempt-3
conversation extending the attempt-1 prompt by the two suffixes; (v)
after a third parse failure the loop raises `JSONParseException`. -/
theorem c5_retry_protocol :
    (∀ (api : Nat → List ChatMessage → Except String String) (sys prompt : String),
        (call_llm_with_thinking api sys prompt).2 <+:
          [[⟨"system", sys⟩, ⟨"user", prompt⟩],
           [⟨"system", sys⟩, ⟨"user", prompt ++ jsonEmphasis 1⟩],
           [⟨"system", sys⟩, ⟨"user", prompt ++ jsonEmphasis 1 ++ jsonEmphasis 2⟩]] ∧
        (call_llm_with_thinking api sys prompt).2.length ≤ jsonRetryMax) ∧
    (∀ (sys c : String) (n : Nat),
        enhance_json_prompt [⟨"system", sys⟩, ⟨"user", c⟩] n =
          [⟨"system", sys⟩, ⟨"user", c ++ jsonEmphasis n⟩]) ∧
    (jsonEmphasis 1 ≠ "" ∧ jsonEmphasis 2 ≠ "") ∧
    (∀ (api : Nat → List ChatMessage → Except String String) (sys prompt e : String),
        api 0 [⟨"system", sys⟩, ⟨"user", prompt⟩] = .error e →
        call_llm_with_thinking api sys prompt =
          (.error (.transport e), [[⟨"system", sys⟩, ⟨"user", prompt⟩]])) ∧
    (∀ (api : Nat → List ChatMessage → Except String String) (sys prompt c1 c2 c3 : String)
        (j : Json),
        api 0 [⟨"system", sys⟩, ⟨"user", prompt⟩] = .ok c1 →
        extract_json_from_content c1 = none →
        api 1 [⟨"system", sys⟩, ⟨"user", prompt ++ jsonEmphasis 1⟩] = .ok c2 →
        extract_json_from_content c2 = none →
        api 2 [⟨"system", sys⟩, ⟨"user", prompt ++ jsonEmphasis 1 ++ jsonEmphasis 2⟩] = .ok c3 →
        extract_json_from_content c3 = some j →
        j.pyTruthy = true →
        call_llm_with_thinking api sys prompt =
          (.ok j,
            [[⟨"system", sys⟩, ⟨"user", prompt⟩],
             [⟨"system", sys⟩, ⟨"user", prompt ++ jsonEmphasis 1⟩],
             [⟨"system", sys⟩, ⟨"user", prompt ++ jsonEmphasis 1 ++ jsonEmphasis 2⟩]])) ∧
    (∀ (api : Nat → List ChatMessage → Except String String) (sys prompt c1 c2 c3 : String),
        api 0 [⟨"system", sys⟩, ⟨"user", prompt⟩] = .ok c1 →
        extract_json_from_content c1 = none →
        api 1 [⟨"system", sys⟩, ⟨"user", prompt ++ jsonEmphasis 1⟩] = .ok c2 →
        extract_json_from_content c2 = none →
        api 2 [⟨"system", sys⟩, ⟨"user", prompt ++ jsonEmphasis 1 ++ jsonEmphasis 2⟩] = .ok c3 →
        extract_json_from_content c3 = none →
        call_llm_with_thinking api sys prompt =
          (.error (.jsonParse "經過多次重試仍無法解析JSON回應"),
            [[⟨"system", sys⟩, ⟨"user", prompt⟩],
             [⟨"system", sys⟩, ⟨"user", prompt ++ jsonEmphasis 1⟩],
             [⟨"system", sys⟩, ⟨"user", prompt ++ jsonEmphasis 1 ++ jsonEmphasis 2⟩]])) := by
  have henh : ∀ (sys c : String) (n : Nat),
      enhance_json_prompt [⟨"system", sys⟩, ⟨"user", c⟩] n =
        [⟨"system", sys⟩, ⟨"user", c ++ jsonEmphasis n⟩] := fun _ _ _ => rfl
  refine ⟨?_, henh, ⟨by decide, by decide⟩, ?_, ?_, ?_⟩
  · intro api sys prompt
    have h := callLLMLoop_trace_isPrefix api jsonRetryMax 0
      [⟨"system", sys⟩, ⟨"user", prompt⟩] []
    have hseq : sentSeq 0 [⟨"system", sys⟩, ⟨"user", prompt⟩] jsonRetryMax =
        [[⟨"system", sys⟩, ⟨"user", prompt⟩],
         [⟨"system", sys⟩, ⟨"user", prompt ++ jsonEmphasis 1⟩],
         [⟨"system", sys⟩, ⟨"user", prompt ++ jsonEmphasis 1 ++ jsonEmphasis 2⟩]] := rfl
    rw [hseq, List.nil_append] at h
    exact ⟨h, by simpa using h.length_le⟩
  · intro api sys prompt e h0
    simp only [call_llm_with_thinking, jsonRetryMax, callLLMLoop, h0, List.nil_append]
  · intro api sys prompt c1 c2 c3 j h0 hx1 h1 hx2 h2 hx3 htr
    simp only [call_llm_with_thinking, jsonRetryMax, callLLMLoop, h0, hx1, List.nil_append,
      henh, h1, hx2, h2, hx3, htr, Bool.not_true, Bool.false_eq_true, if_false,
      OfNat.ofNat_ne_zero, Nat.succ_ne_zero]
    rfl
  · intro api sys prompt c1 c2 c3 h0 hx1 h1 hx2 h2 hx3
    simp only [call_llm_with_thinking, jsonRetryMax, callLLMLoop, h0, hx1, List.nil_append,
      henh, h1, hx2, h2, hx3, Bool.not_true, Bool.false_eq_true, if_false,
      OfNat.ofNat_ne_zero, Nat.succ_ne_zero]
    rfl

def c5Good : String := "\x7b\"ok\": 1\x7d"

def c5Api : Nat → List ChatMessage → Except String String :=
  fun attempt _ => if attempt = 2 then .ok c5Good else .ok "這不是JSON"

def c5TransportApi : Nat → List ChatMessage → Except String String :=
  fun _ _ => .error "網路錯誤"

/-- C5 witness: a mock API returning invalid JSON on attempts 1–2 and a
valid object on attempt 3 yields the attempt-3 object with the enhanced
conversation trace, and a transport-failing API raises immediately after
a single attempt. -/
theorem c5_witness :
    call_llm_with_thinking c5Api "系統指示" "請輸出" =
      (.ok (.obj [("ok", .num 1)]),
        [[⟨"system", "系統指示"⟩, ⟨"user", "請輸出"⟩],
         [⟨"system", "系統指示"⟩, ⟨"user", "請輸出" ++ jsonEmphasis 1⟩],
         [⟨"system", "系統指示"⟩, ⟨"user", "請輸出" ++ jsonEmphasis 1 ++ jsonEmphasis 2⟩]]) ∧
    call_llm_with_thinking c5TransportApi "系統指示" "請輸出" =
      (.error (.transport "網路錯誤"), [[⟨"system", "系統指示"⟩, ⟨"user", "請輸出"⟩]]) := by
  constructor
  · exact c5_retry_protocol.2.2.2.2.1 c5Api "系統指示" "請輸出" "這不是JSON" "這不是JSON"
      c5Good (.obj [("ok", .num 1)]) rfl rfl rfl rfl rfl rfl rfl
  · exact c5_retry_protocol.2.2.2.1 c5TransportApi "系統指示" "請輸出" "網路錯誤" rfl

/-! ## Claim C7 -/

/-- Brace balance of a character list: occurrences of `{` minus
occurrences of `}`. -/
def braceBal (l : List Char) : Int :=
  (l.count '{' : Int) - (l.count '}' : Int)

theorem braceBal_cons (c : Char) (l : List Char) :
    braceBal (c :: l) = braceBal [c] + braceBal l := by
  simp only [braceBal, List.count_cons, List.count_nil]
  push_cast
  ring

theorem braceBal_close : braceBal ['}'] = -1 := by decide

/-- If the running balance `d + braceBal (prefix)` stays positive on
every non-empty prefix, the repair scan never sees the depth return to
zero and reports no cut point. -/
theorem repairScan_none :
    ∀ (cs : List Char) (d : Int) (idx : Nat),
      (∀ n, n ≤ cs.length → 0 < n → 0 < d + braceBal (cs.take n)) →
      repairScan cs d idx = none := by
  intro cs
  induction cs with
  | nil => intro d i _; rfl
  | cons c rest ih =>
    intro d i h
    have h1 : 0 < d + braceBal [c] := by
      have := h 1 (by simp only [List.length_cons]; omega) (by omega)
      simpa using this
    have hbc : braceBal [c] = if c = '{' then 1 else if c = '}' then (-1 : Int) else 0 := by
      by_cases h1' : c = '{'
      · subst h1'; decide
      · by_cases h2' : c = '}'
        · subst h2'; decide
        · rw [if_neg h1', if_neg h2']
          simp [braceBal, List.count_cons, List.count_nil, h1', h2']
    have hstep : (if c = '{' then d + 1 else if c = '}' then d - 1 else d) =
        d + braceBal [c] := by
      rw [hbc]
      split_ifs <;> ring
    unfold repairScan
    dsimp only
    rw [if_neg ?hcond]
    case hcond =>
      simp only [Bool.and_eq_true, decide_eq_true_eq, not_and]
      intro hc hd0
      subst hc
      rw [hstep, braceBal_close] at hd0
      rw [braceBal_close] at h1
      omega
    rw [hstep]
    apply ih
    intro n hlen hn
    have := h (n + 1) (by simpa using hlen) (by omega)
    rw [List.take_succ_cons, braceBal_cons] at this
    omega

theorem findOpenBrace_skip (pre rest : List Char) (hpre : '{' ∉ pre) :
    findOpenBrace (pre ++ '{' :: rest) = some ('{' :: rest) := by
  induction pre with
  | nil => simp [findOpenBrace]
  | cons c t ih =>
    rw [List.cons_append]
    unfold findOpenBrace
    rw [if_neg (fun hc => hpre (by rw [← hc]; exact List.mem_cons_self c t))]
    exact ih fun hm => hpre (List.mem_cons_of_mem c hm)

/-- C7 (amended): the NotFound-on-truncation guarantee belongs to the
manual repair pass — whenever the brace depth starting at the first `{`
never returns to zero, `_attempt_json_repair` returns NotFound.
`extract_json_from_content` as a whole can still return an object found
by the greedy-regex strategy in a balanced sub-span of a truncated input
(see the counterexample). -/
theorem c7_truncated_repair_not_found (pre suf : List Char) (hpre : '{' ∉ pre)
    (htrunc : ∀ n, n ≤ ('{' :: suf).length → 0 < n → 0 < braceBal (('{' :: suf).take n)) :
    attempt_json_repair (pre ++ '{' :: suf) = none := by
  simp only [attempt_json_repair, findOpenBrace_skip pre suf hpre,
    repairScan_none ('{' :: suf) 0 0 (fun n hlen hn => by simpa using htrunc n hlen hn)]

def c7Input : String := "\x7b \x7b\"a\":1\x7d"

/-- C7 counterexample: in `{ {"a":1}` the first `{` opens a truncated
span (the depth never returns to zero), yet `extract_json_from_content`
returns `{"a":1}` — found by the greedy-regex strategy in the balanced
sub-span — rather than NotFound. -/
theorem c7_counterexample :
    (∀ n, n ≤ c7Input.data.length → 0 < n → 0 < braceBal (c7Input.data.take n)) ∧
    extract_json_from_content c7Input = some (.obj [("a", .num 1)]) :=
  ⟨by decide, rfl⟩

/-- C7 witness: the repair pass on the truncated input `xx{((` returns
NotFound. -/
theorem c7_witness : attempt_json_repair ("xx".data ++ '{' :: "((".data) = none :=
  c7_truncated_repair_not_found "xx".data "((".data (by decide) (by decide)

/-! ## Claim C4 -/

def c4Input : String := "\x7b\"a\":\x7b\"b\":\x7b\"c\":1\x7d\x7d\x7d"

/-- C4 counterexample: the bare depth-3 object `{"a":{"b":{"c":1}}}` is
the single well-formed JSON object of the input (as `json.loads`
confirms), yet `extract_json_from_content` returns the proper sub-object
`{"b":{"c":1}}`: the greedy strategy-3 regex cannot match three levels of
nesting, matches the inner balanced span first, and pre-empts the repair
pass. -/
theorem c4_counterexample :
    jsonLoads c4Input = some (.obj [("a", .obj [("b", .obj [("c", .num 1)])])]) ∧
    extract_json_from_content c4Input = some (.obj [("b", .obj [("c", .num 1)])]) ∧
    (Json.obj [("b", .obj [("c", .num 1)])]) ≠
      (Json.obj [("a", .obj [("b", .obj [("c", .num 1)])])]) := by
  refine ⟨rfl, rfl, ?_⟩
  intro h
  simp at h

/-- Characters allowed in the modelled flat-object keys and values: no
quote, backslash, brace, backtick or control character. -/
def safeChar (c : Char) : Bool :=
  c ≠ '"' && c ≠ '\\' && c ≠ '{' && c ≠ '}' && c ≠ '`' && !(c.toNat < 32)

def renderStr (s : String) : List Char :=
  '"' :: s.data ++ ['"']

def renderMember (kv : String × String) : List Char :=
  renderStr kv.1 ++ ':' :: renderStr kv.2

def renderMembers : List (String × String) → List Char
  | [] => []
  | [kv] => renderMember kv
  | kv :: rest => renderMember kv ++ ',' :: renderMembers rest

/-- The canonical bare rendering of a flat string-valued JSON object. -/
def renderFlatObj (fields : List (String × String)) : List Char :=
  '{' :: renderMembers fields ++ ['}']

theorem renderMembers_mem (fields : List (String × String)) (c : Char)
    (hc : c ∈ renderMembers fields) :
    c = '"' ∨ c = ':' ∨ c = ',' ∨ ∃ kv ∈ fields, c ∈ kv.1.data ∨ c ∈ kv.2.data := by
  induction fields with
  | nil => simp [renderMembers] at hc
  | cons kv tl ih =>
    have hmember : c ∈ renderMember kv →
        c = '"' ∨ c = ':' ∨ c = ',' ∨ ∃ kv' ∈ kv :: tl, c ∈ kv'.1.data ∨ c ∈ kv'.2.data := by
      intro hm
      have hshape : c = '"' ∨ c ∈ kv.1.data ∨ c = ':' ∨ c ∈ kv.2.data := by
        simp [renderMember, renderStr] at hm
        tauto
      rcases hshape with h | h | h | h
      · exact Or.inl h
      · exact Or.inr (Or.inr (Or.inr ⟨kv, List.mem_cons_self kv tl, Or.inl h⟩))
      · exact Or.inr (Or.inl h)
      · exact Or.inr (Or.inr (Or.inr ⟨kv, List.mem_cons_self kv tl, Or.inr h⟩))
    cases tl with
    | nil =>
      have hc' : c ∈ renderMember kv := hc
      exact hmember hc'
    | cons kv2 tl2 =>
      have hc' : c ∈ renderMember kv ++ ',' :: renderMembers (kv2 :: tl2) := hc
      rcases List.mem_append.mp hc' with hm | hm
      · exact hmember hm
      · rcases List.mem_cons.mp hm with h | h
        · exact Or.inr (Or.inr (Or.inl h))
        · rcases ih h with h' | h' | h' | ⟨kv', hkv', h'⟩
          · exact Or.inl h'
          · exact Or.inr (Or.inl h')
          · exact Or.inr (Or.inr (Or.inl h'))
          · exact Or.inr (Or.inr (Or.inr ⟨kv', List.mem_cons_of_mem kv hkv', h'⟩))

theorem safeChar_spec {c : Char} (h : safeChar c = true) :
    c ≠ '"' ∧ c ≠ '\\' ∧ c ≠ '{' ∧ c ≠ '}' ∧ c ≠ '`' ∧ ¬(c.toNat < 32) := by
  simp only [safeChar, Bool.and_eq_true, bne_iff_ne, ne_eq, Bool.not_eq_true',
    decide_eq_false_iff_not, decide_eq_true_eq] at h
  tauto

theorem pStringBody_safe (s rest : List Char) (hs : ∀ c ∈ s, safeChar c = true) :
    pStringBody (s ++ '"' :: rest) = some (s, rest) := by
  induction s with
  | nil =>
    unfold pStringBody
    simp
  | cons c t ih =>
    obtain ⟨h1, h2, _, _, _, h6⟩ := safeChar_spec (hs c (List.mem_cons_self c t))
    rw [List.cons_append]
    unfold pStringBody
    rw [if_neg h1, if_neg h2, if_neg h6,
      ih fun c' hc' => hs c' (List.mem_cons_of_mem c hc')]

theorem pString_render (s : String) (rest : List Char)
    (hs : ∀ c ∈ s.data, safeChar c = true) :
    pString ('"' :: s.data ++ '"' :: rest) = some (s, rest) := by
  simp only [pString, List.cons_append, pStringBody_safe s.data rest hs]

theorem skipWs_cons_of_not_ws (c : Char) (l : List Char) (h : jsonWs c = false) :
    skipWs (c :: l) = c :: l := by
  simp [skipWs, List.dropWhile_cons, h]

theorem pValue_renderStr (f : Nat) (v : String) (rest : List Char)
    (hv : ∀ c ∈ v.data, safeChar c = true) :
    pValue (f + 1) (renderStr v ++ rest) = some (.str v, rest) := by
  have hshape : renderStr v ++ rest = '"' :: (v.data ++ '"' :: rest) := by
    simp [renderStr]
  rw [hshape]
  simp only [pValue, skipWs_cons_of_not_ws '"' _ rfl]
  rw [show pString ('"' :: (v.data ++ '"' :: rest)) = some (v, rest) from
    pString_render v rest hv]
  simp

theorem skipWs_colon (l : List Char) : skipWs (':' :: l) = ':' :: l :=
  skipWs_cons_of_not_ws ':' l rfl

theorem skipWs_comma (l : List Char) : skipWs (',' :: l) = ',' :: l :=
  skipWs_cons_of_not_ws ',' l rfl

theorem skipWs_rbrace (l : List Char) : skipWs ('}' :: l) = '}' :: l :=
  skipWs_cons_of_not_ws '}' l rfl

theorem skipWs_quote (l : List Char) : skipWs ('"' :: l) = '"' :: l :=
  skipWs_cons_of_not_ws '"' l rfl

theorem skipWs_lbrace (l : List Char) : skipWs ('{' :: l) = '{' :: l :=
  skipWs_cons_of_not_ws '{' l rfl

theorem renderMembers_head (kv : String × String) (tl : List (String × String)) :
    ∃ t, renderMembers (kv :: tl) = '"' :: t := by
  cases tl with
  | nil => exact ⟨_, rfl⟩
  | cons kv2 tl2 => exact ⟨_, rfl⟩

theorem pMemberList_render :
    ∀ (fields : List (String × String)) (g : Nat) (rest : List Char),
      fields ≠ [] →
      (∀ kv ∈ fields,
        (∀ c ∈ kv.1.data, safeChar c = true) ∧ (∀ c ∈ kv.2.data, safeChar c = true)) →
      pMemberList (fields.length + g + 1) (renderMembers fields ++ '}' :: rest) =
        some (.obj (fields.map fun kv => (kv.1, .str kv.2)), rest) := by
  intro fields
  induction fields with
  | nil => intro g rest hne _; exact absurd rfl hne
  | cons kv tl ih =>
    intro g rest _ hsafe
    obtain ⟨hk, hv⟩ := hsafe kv (List.mem_cons_self kv tl)
    cases tl with
    | nil =>
      have hfuel : ([kv] : List (String × String)).length + g + 1 = (g + 1) + 1 := by
        simp only [List.length_singleton]
        omega
      have hshape : renderMembers [kv] ++ '}' :: rest =
          '"' :: (kv.1.data ++ '"' :: (':' :: (renderStr kv.2 ++ '}' :: rest))) := by
        simp [renderMembers, renderMember, renderStr]
      rw [hfuel, hshape, pMemberList.eq_2]
      have hps : pString ('"' :: (kv.1.data ++ '"' :: (':' :: (renderStr kv.2 ++ '}' :: rest)))) =
          some (kv.1, ':' :: (renderStr kv.2 ++ '}' :: rest)) :=
        pString_render kv.1 _ hk
      have hpv : pValue (g + 1) (renderStr kv.2 ++ '}' :: rest) =
          some (.str kv.2, '}' :: rest) :=
        pValue_renderStr g kv.2 _ hv
      simp only [hps, skipWs_colon, hpv, skipWs_rbrace]
      rfl
    | cons kv2 tl2 =>
      have hfuel : (kv :: kv2 :: tl2).length + g + 1 =
          ((kv2 :: tl2).length + g + 1) + 1 := by
        simp only [List.length_cons]
        omega
      have hshape : renderMembers (kv :: kv2 :: tl2) ++ '}' :: rest =
          '"' :: (kv.1.data ++ '"' ::
            (':' :: (renderStr kv.2 ++ ',' :: (renderMembers (kv2 :: tl2) ++ '}' :: rest)))) := by
        have hrm : renderMembers (kv :: kv2 :: tl2) =
            renderMember kv ++ ',' :: renderMembers (kv2 :: tl2) := rfl
        simp [hrm, renderMember, renderStr]
      rw [hfuel, hshape, pMemberList.eq_2]
      have hps : pString ('"' :: (kv.1.data ++ '"' ::
          (':' :: (renderStr kv.2 ++ ',' :: (renderMembers (kv2 :: tl2) ++ '}' :: rest))))) =
          some (kv.1, ':' :: (renderStr kv.2 ++ ',' ::
            (renderMembers (kv2 :: tl2) ++ '}' :: rest))) :=
        pString_render kv.1 _ hk
      obtain ⟨g1, hg1⟩ : ∃ g1, (kv2 :: tl2).length + g + 1 = g1 + 1 :=
        ⟨(kv2 :: tl2).length + g, by omega⟩
      have hpv : pValue ((kv2 :: tl2).length + g + 1)
          (renderStr kv.2 ++ ',' :: (renderMembers (kv2 :: tl2) ++ '}' :: rest)) =
          some (.str kv.2, ',' :: (renderMembers (kv2 :: tl2) ++ '}' :: rest)) := by
        rw [hg1]
        exact pValue_renderStr g1 kv.2 _ hv
      obtain ⟨t, ht⟩ := renderMembers_head kv2 tl2
      have hskip : skipWs (renderMembers (kv2 :: tl2) ++ '}' :: rest) =
          renderMembers (kv2 :: tl2) ++ '}' :: rest := by
        rw [ht, List.cons_append, skipWs_quote, ← List.cons_append, ← ht]
      have hih := ih g rest (by simp) fun kv' hkv' =>
        hsafe kv' (List.mem_cons_of_mem kv hkv')
      simp only [hps, skipWs_colon, hpv, skipWs_comma, hskip, hih]
      rfl

theorem renderMembers_length_ge (fields : List (String × String)) :
    fields.length ≤ (renderMembers fields).length := by
  induction fields with
  | nil => simp [renderMembers]
  | cons kv tl ih =>
    cases tl with
    | nil =>
      have h1 : renderMembers [kv] = renderMember kv := rfl
      rw [h1]
      simp only [renderMember, renderStr, List.length_append, List.length_cons,
        List.length_singleton, List.length_nil]
      omega
    | cons kv2 tl2 =>
      have hrm : renderMembers (kv :: kv2 :: tl2) =
          renderMember kv ++ ',' :: renderMembers (kv2 :: tl2) := rfl
      rw [hrm]
      simp only [List.length_append, List.length_cons] at ih ⊢
      omega

theorem jsonLoadsChars_render (fields : List (String × String)) (hf : fields ≠ [])
    (hsafe : ∀ kv ∈ fields,
      (∀ c ∈ kv.1.data, safeChar c = true) ∧ (∀ c ∈ kv.2.data, safeChar c = true)) :
    jsonLoadsChars (renderFlatObj fields) =
      some (.obj (fields.map fun kv => (kv.1, .str kv.2))) := by
  obtain ⟨kv0, tl0, rfl⟩ : ∃ kv0 tl0, fields = kv0 :: tl0 := by
    cases fields with
    | nil => exact absurd rfl hf
    | cons kv0 tl0 => exact ⟨kv0, tl0, rfl⟩
  have hlen : (renderFlatObj (kv0 :: tl0)).length =
      (renderMembers (kv0 :: tl0)).length + 2 := by
    simp [renderFlatObj]
  have hge := renderMembers_length_ge (kv0 :: tl0)
  obtain ⟨g, hg⟩ : ∃ g, 2 * (renderFlatObj (kv0 :: tl0)).length + 2 =
      (((kv0 :: tl0).length + g + 1) + 1) + 1 := by
    rw [hlen]
    simp only [List.length_cons] at hge ⊢
    exact ⟨2 * (renderMembers (kv0 :: tl0)).length + 3 - (tl0.length + 1), by omega⟩
  unfold jsonLoadsChars
  rw [hg, pValue.eq_2]
  have hro : renderFlatObj (kv0 :: tl0) = '{' :: (renderMembers (kv0 :: tl0) ++ ['}']) := rfl
  rw [hro, skipWs_lbrace]
  obtain ⟨t, ht⟩ := renderMembers_head kv0 tl0
  have hskip : skipWs (renderMembers (kv0 :: tl0) ++ ['}']) =
      renderMembers (kv0 :: tl0) ++ ['}'] := by
    rw [ht, List.cons_append, skipWs_quote, ← List.cons_append, ← ht]
  have hpm : pMembers (((kv0 :: tl0).length + g + 1) + 1)
      (renderMembers (kv0 :: tl0) ++ ['}']) =
      pMemberList ((kv0 :: tl0).length + g + 1) (renderMembers (kv0 :: tl0) ++ ['}']) := by
    rw [pMembers.eq_2, hskip, ht, List.cons_append]
    rfl
  have hml := pMemberList_render (kv0 :: tl0) g [] (by simp) hsafe
  simp only [reduceIte, hpm, hml, skipWs]
  rfl

theorem pyStrip_no_ws_ends (l : List Char) (x y : Char) (hx : pyWs x = false)
    (hy : pyWs y = false) : pyStrip (x :: l ++ [y]) = x :: l ++ [y] := by
  unfold pyStrip
  have h1 : ((x :: l ++ [y]).dropWhile pyWs) = x :: l ++ [y] := by
    simp [List.dropWhile_cons, hx]
  rw [h1]
  have h2 : (x :: l ++ [y]).reverse = y :: (x :: l).reverse := by
    simp
  rw [h2]
  have h3 : ((y :: (x :: l).reverse).dropWhile pyWs) = y :: (x :: l).reverse := by
    simp [List.dropWhile_cons, hy]
  rw [h3, ← h2, List.reverse_reverse]

theorem clean_render (mid : List Char) :
    clean_json_string ('{' :: mid ++ ['}']) = '{' :: mid ++ ['}'] := by
  unfold clean_json_string
  dsimp only
  have hbom : (('{' :: mid ++ ['}'] : List Char).dropWhile
      (fun c => c = Char.ofNat 0xFEFF)) = '{' :: mid ++ ['}'] := by
    simp [List.dropWhile_cons]
  rw [hbom, pyStrip_no_ws_ends mid '{' '}' rfl rfl]
  have hc1 : ('{' :: mid ++ ['}'] : List Char).contains '{' = true :=
    List.elem_eq_true_of_mem (List.mem_cons_self _ _)
  rw [if_pos hc1]
  have hdrop : (('{' :: mid ++ ['}'] : List Char).dropWhile (fun c => c ≠ '{')) =
      '{' :: mid ++ ['}'] := by
    simp [List.dropWhile_cons]
  rw [hdrop]
  have hc2 : ('{' :: mid ++ ['}'] : List Char).contains '}' = true :=
    List.elem_eq_true_of_mem (by simp)
  rw [if_pos hc2]
  have h2 : ('{' :: mid ++ ['}'] : List Char).reverse = '}' :: ('{' :: mid).reverse := by
    simp
  rw [h2]
  have h3 : (('}' :: ('{' :: mid).reverse).dropWhile (fun c => c ≠ '}')) =
      '}' :: ('{' :: mid).reverse := by
    simp [List.dropWhile_cons]
  rw [h3, ← h2, List.reverse_reverse]

theorem renderMembers_nonBrace (fields : List (String × String))
    (hsafe : ∀ kv ∈ fields,
      (∀ c ∈ kv.1.data, safeChar c = true) ∧ (∀ c ∈ kv.2.data, safeChar c = true)) :
    ∀ c ∈ renderMembers fields, nonBrace c = true := by
  intro c hc
  rcases renderMembers_mem fields c hc with h | h | h | ⟨kv, hkv, h⟩
  · subst h; rfl
  · subst h; rfl
  · subst h; rfl
  · rcases h with h | h
    · obtain ⟨_, _, h3, h4, _, _⟩ := safeChar_spec ((hsafe kv hkv).1 c h)
      simp [nonBrace, h3, h4]
    · obtain ⟨_, _, h3, h4, _, _⟩ := safeChar_spec ((hsafe kv hkv).2 c h)
      simp [nonBrace, h3, h4]

theorem tryCandidate_render (fields : List (String × String)) (hf : fields ≠ [])
    (hsafe : ∀ kv ∈ fields,
      (∀ c ∈ kv.1.data, safeChar c = true) ∧ (∀ c ∈ kv.2.data, safeChar c = true)) :
    tryCandidate (renderFlatObj fields) =
      some (.obj (fields.map fun kv => (kv.1, .str kv.2))) := by
  unfold tryCandidate
  dsimp only
  rw [show renderFlatObj fields = '{' :: renderMembers fields ++ ['}'] from rfl,
    pyStrip_no_ws_ends (renderMembers fields) '{' '}' rfl rfl,
    clean_render (renderMembers fields),
    show ('{' :: renderMembers fields ++ ['}'] : List Char) = renderFlatObj fields from rfl,
    jsonLoadsChars_render fields hf hsafe]
  have hne : (Json.obj (fields.map fun kv => (kv.1, Json.str kv.2))).isNonEmptyObj = true := by
    obtain ⟨kv0, tl0, rfl⟩ : ∃ a b, fields = a :: b := by
      cases fields with
      | nil => exact absurd rfl hf
      | cons a b => exact ⟨a, b, rfl⟩
    rfl
  simp [hne]

theorem findSub_none_of_head_notMem (p0 : Char) (ps cs : List Char) (h : p0 ∉ cs) :
    findSub (p0 :: ps) cs = none := by
  induction cs with
  | nil => rfl
  | cons c t ih =>
    unfold findSub
    have hpf : ((p0 :: ps).isPrefixOf (c :: t)) = false := by
      have hne : (p0 == c) = false :=
        beq_eq_false_iff_ne.mpr fun he => h (he ▸ List.mem_cons_self c t)
      show (p0 == c && ps.isPrefixOf t) = false
      rw [hne, Bool.false_and]
    rw [if_neg (by rw [hpf]; exact Bool.false_ne_true),
      ih fun hm => h (List.mem_cons_of_mem c hm)]

theorem strat1_no_backtick (cs : List Char) (h : '`' ∉ cs) (f : Nat) :
    strat1Matches f cs = [] := by
  cases f with
  | zero => rfl
  | succ f =>
    unfold strat1Matches
    rw [show findSub "```json".data cs = none from
      findSub_none_of_head_notMem '`' "``json".data cs h]

theorem strat2_no_backtick (cs : List Char) (h : '`' ∉ cs) (f : Nat) :
    strat2Matches f cs = [] := by
  cases f with
  | zero => rfl
  | succ f =>
    unfold strat2Matches
    rw [show findSub "```".data cs = none from
      findSub_none_of_head_notMem '`' "``".data cs h]

theorem strat3_skip (pre : List Char) (hpre : ∀ c ∈ pre, c ≠ '{') :
    ∀ (f : Nat) (rest : List Char),
    strat3Matches (pre.length + f) (pre ++ rest) = strat3Matches f rest := by
  induction pre with
  | nil =>
    intro f rest
    simp
  | cons c t ihp =>
    intro f rest
    have hlen : (c :: t).length + f = (t.length + f) + 1 := by
      simp only [List.length_cons]
      omega
    rw [hlen, List.cons_append, strat3Matches.eq_3,
      if_neg (hpre c (List.mem_cons_self c t))]
    exact ihp (fun c' hc' => hpre c' (List.mem_cons_of_mem c hc')) f rest

theorem takeWhile_all_append (p : Char → Bool) (l : List Char) (x : Char) (r : List Char)
    (hl : ∀ c ∈ l, p c = true) (hx : p x = false) :
    (l ++ x :: r).takeWhile p = l ∧ (l ++ x :: r).dropWhile p = x :: r := by
  induction l with
  | nil => simp [List.takeWhile_cons, List.dropWhile_cons, hx]
  | cons a t ih =>
    have ha : p a = true := hl a (List.mem_cons_self a t)
    obtain ⟨h1, h2⟩ := ih fun c hc => hl c (List.mem_cons_of_mem a hc)
    simp [List.takeWhile_cons, List.dropWhile_cons, ha, h1, h2]

theorem matchStrat3_flat (f : Nat) (mid rest : List Char)
    (hmid : ∀ c ∈ mid, nonBrace c = true) :
    matchStrat3At f ('{' :: (mid ++ '}' :: rest)) = some ('{' :: (mid ++ ['}']), rest) := by
  obtain ⟨ht, hd⟩ := takeWhile_all_append nonBrace mid '}' rest hmid rfl
  show (match strat3AfterRun f (List.dropWhile nonBrace (mid ++ '}' :: rest)) with
      | some (tail, rem) =>
        some ('{' :: List.takeWhile nonBrace (mid ++ '}' :: rest) ++ tail, rem)
      | none => none) = some ('{' :: (mid ++ ['}']), rest)
  rw [ht, hd, strat3AfterRun.eq_1]
  rfl

theorem strat3Matches_render (f : Nat) (mid post : List Char)
    (hmid : ∀ c ∈ mid, nonBrace c = true) :
    strat3Matches (f + 1) ('{' :: (mid ++ '}' :: post)) =
      ('{' :: (mid ++ ['}'])) :: strat3Matches f post := by
  rw [strat3Matches.eq_3, if_pos rfl, matchStrat3_flat (f + 1) mid post hmid]

theorem renderFlatObj_no_backtick (fields : List (String × String))
    (hsafe : ∀ kv ∈ fields,
      (∀ c ∈ kv.1.data, safeChar c = true) ∧ (∀ c ∈ kv.2.data, safeChar c = true)) :
    '`' ∉ renderFlatObj fields := by
  intro hm
  rw [show renderFlatObj fields = '{' :: renderMembers fields ++ ['}'] from rfl] at hm
  rcases List.mem_cons.mp hm with h | h
  · exact absurd h.symm (by decide)
  · rcases List.mem_append.mp h with h | h
    · rcases renderMembers_mem fields '`' h with h' | h' | h' | ⟨kv, hkv, h'⟩
      · exact absurd h'.symm (by decide)
      · exact absurd h'.symm (by decide)
      · exact absurd h'.symm (by decide)
      · rcases h' with h' | h'
        · exact (safeChar_spec ((hsafe kv hkv).1 '`' h')).2.2.2.2.1 rfl
        · exact (safeChar_spec ((hsafe kv hkv).2 '`' h')).2.2.2.2.1 rfl
    · exact absurd (List.mem_singleton.mp h).symm (by decide)


/-- The text of the `(?:\{[^{}]*\}[^{}]*)*` iteration part of the
strategy-3 pattern: each group is an inner brace pair around a
brace-free run, followed by a brace-free run. -/
def groupsText : List (List Char × List Char) → List Char
  | [] => []
  | (t, s) :: rest => '{' :: t ++ '}' :: s ++ groupsText rest

/-- A span of the exact shape the strategy-3 pattern matches — brace
nesting depth at most two: `{`, a brace-free run, inner groups, `}`. -/
def shape2 (seg0 : List Char) (gs : List (List Char × List Char)) : List Char :=
  '{' :: seg0 ++ groupsText gs ++ ['}']

theorem groupsText_head (gs : List (List Char × List Char)) (post : List Char) :
    ∃ x r, groupsText gs ++ '}' :: post = x :: r ∧ nonBrace x = false := by
  cases gs with
  | nil => exact ⟨'}', post, rfl, by decide⟩
  | cons g tl =>
    obtain ⟨t, s⟩ := g
    refine ⟨'{', t ++ '}' :: (s ++ (groupsText tl ++ '}' :: post)), ?_, by decide⟩
    simp [groupsText, List.append_assoc]

theorem groupsText_length_le (gs : List (List Char × List Char)) :
    gs.length ≤ (groupsText gs).length := by
  induction gs with
  | nil => simp [groupsText]
  | cons g tl ih =>
    obtain ⟨t, s, rfl⟩ : ∃ t s, g = (t, s) := ⟨g.1, g.2, rfl⟩
    simp only [groupsText, List.length_cons, List.length_append]
    omega

theorem strat3AfterRun_groups (gs : List (List Char × List Char)) :
    ∀ (f : Nat) (post : List Char),
      (∀ g ∈ gs, (∀ c ∈ g.1, nonBrace c = true) ∧ (∀ c ∈ g.2, nonBrace c = true)) →
      strat3AfterRun (gs.length + f) (groupsText gs ++ '}' :: post) =
        some (groupsText gs ++ ['}'], post) := by
  induction gs with
  | nil =>
    intro f post _
    show strat3AfterRun (([] : List (List Char × List Char)).length + f) ('}' :: post) =
      some (['}'], post)
    rw [strat3AfterRun.eq_1]
  | cons g tl ih =>
    intro f post hgs
    obtain ⟨t, s, rfl⟩ : ∃ t s, g = (t, s) := ⟨g.1, g.2, rfl⟩
    obtain ⟨hk, hv⟩ := hgs (t, s) (List.mem_cons_self _ _)
    have hlen : (((t, s) :: tl).length + f : Nat) = (tl.length + f) + 1 := by
      simp only [List.length_cons]
      omega
    have hshape : groupsText ((t, s) :: tl) ++ '}' :: post =
        '{' :: (t ++ '}' :: (s ++ (groupsText tl ++ '}' :: post))) := by
      simp [groupsText]
    rw [hlen, hshape]
    obtain ⟨ht2, hd2⟩ := takeWhile_all_append nonBrace t '}'
      (s ++ (groupsText tl ++ '}' :: post)) hk rfl
    obtain ⟨x, r, hxr, hx⟩ := groupsText_head tl post
    have hsx : s ++ (groupsText tl ++ '}' :: post) = s ++ x :: r := by rw [hxr]
    obtain ⟨ht3, hd3⟩ := takeWhile_all_append nonBrace s x r hv hx
    show (match (t ++ '}' :: (s ++ (groupsText tl ++ '}' :: post))).dropWhile nonBrace with
      | '}' :: r3 =>
        (match strat3AfterRun (tl.length + f) (r3.dropWhile nonBrace) with
        | some (tail, rem) =>
          some ('{' :: (t ++ '}' :: (s ++ (groupsText tl ++ '}' :: post))).takeWhile nonBrace
            ++ '}' :: r3.takeWhile nonBrace ++ tail, rem)
        | none => none)
      | _ => none) = some (groupsText ((t, s) :: tl) ++ ['}'], post)
    rw [hd2]
    show (match strat3AfterRun (tl.length + f)
        ((s ++ (groupsText tl ++ '}' :: post)).dropWhile nonBrace) with
      | some (tail, rem) =>
        some ('{' :: (t ++ '}' :: (s ++ (groupsText tl ++ '}' :: post))).takeWhile nonBrace
          ++ '}' :: (s ++ (groupsText tl ++ '}' :: post)).takeWhile nonBrace ++ tail, rem)
      | none => none) = some (groupsText ((t, s) :: tl) ++ ['}'], post)
    rw [ht2, hsx, hd3, ht3, ← hxr,
      ih f post (fun g hg => hgs g (List.mem_cons_of_mem _ hg))]
    simp [groupsText, List.append_assoc]

theorem matchStrat3_shape2 (f : Nat) (seg0 : List Char)
    (gs : List (List Char × List Char)) (post : List Char)
    (hseg : ∀ c ∈ seg0, nonBrace c = true)
    (hgs : ∀ g ∈ gs, (∀ c ∈ g.1, nonBrace c = true) ∧ (∀ c ∈ g.2, nonBrace c = true)) :
    matchStrat3At (gs.length + f) (shape2 seg0 gs ++ post) =
      some (shape2 seg0 gs, post) := by
  have hsh : shape2 seg0 gs ++ post = '{' :: (seg0 ++ (groupsText gs ++ '}' :: post)) := by
    simp [shape2]
  rw [hsh]
  obtain ⟨x, r, hxr, hx⟩ := groupsText_head gs post
  obtain ⟨ht1, hd1⟩ := takeWhile_all_append nonBrace seg0 x r hseg hx
  show (match strat3AfterRun (gs.length + f)
      ((seg0 ++ (groupsText gs ++ '}' :: post)).dropWhile nonBrace) with
    | some (tail, rem) =>
      some ('{' :: (seg0 ++ (groupsText gs ++ '}' :: post)).takeWhile nonBrace ++ tail, rem)
    | none => none) = some (shape2 seg0 gs, post)
  rw [hxr, hd1, ht1, ← hxr, strat3AfterRun_groups gs f post hgs]
  simp [shape2, List.append_assoc]

theorem strat3Matches_shape2 (f : Nat) (seg0 : List Char)
    (gs : List (List Char × List Char)) (post : List Char)
    (hseg : ∀ c ∈ seg0, nonBrace c = true)
    (hgs : ∀ g ∈ gs, (∀ c ∈ g.1, nonBrace c = true) ∧ (∀ c ∈ g.2, nonBrace c = true)) :
    strat3Matches (gs.length + f + 1) (shape2 seg0 gs ++ post) =
      shape2 seg0 gs :: strat3Matches (gs.length + f) post := by
  have hsh : shape2 seg0 gs ++ post = '{' :: (seg0 ++ (groupsText gs ++ '}' :: post)) := by
    simp [shape2]
  rw [hsh, strat3Matches.eq_3, if_pos rfl, ← hsh,
    show gs.length + f + 1 = gs.length + (f + 1) from by omega,
    matchStrat3_shape2 (f + 1) seg0 gs post hseg hgs]

theorem tryCandidate_shape2 (seg0 : List Char) (gs : List (List Char × List Char))
    (j : Json) (hparse : jsonLoadsChars (shape2 seg0 gs) = some j)
    (hobj : j.isNonEmptyObj = true) :
    tryCandidate (shape2 seg0 gs) = some j := by
  unfold tryCandidate
  dsimp only
  rw [show shape2 seg0 gs = '{' :: (seg0 ++ groupsText gs) ++ ['}'] from by simp [shape2],
    pyStrip_no_ws_ends (seg0 ++ groupsText gs) '{' '}' rfl rfl,
    clean_render (seg0 ++ groupsText gs),
    show ('{' :: (seg0 ++ groupsText gs) ++ ['}'] : List Char) = shape2 seg0 gs from by
      simp [shape2],
    hparse]
  simp [hobj]

theorem extract_bare_shape2 (pre seg0 : List Char) (gs : List (List Char × List Char))
    (post : List Char) (j : Json)
    (hpre : ∀ c ∈ pre, c ≠ '{' ∧ c ≠ '`')
    (hseg : ∀ c ∈ seg0, nonBrace c = true)
    (hgs : ∀ g ∈ gs, (∀ c ∈ g.1, nonBrace c = true) ∧ (∀ c ∈ g.2, nonBrace c = true))
    (hmid : '`' ∉ shape2 seg0 gs)
    (hpost : ∀ c ∈ post, c ≠ '`')
    (hparse : jsonLoadsChars (shape2 seg0 gs) = some j)
    (hobj : j.isNonEmptyObj = true) :
    extract_json_from_content (String.mk (pre ++ shape2 seg0 gs ++ post)) = some j := by
  have hbt : '`' ∉ pre ++ shape2 seg0 gs ++ post := by
    intro hm
    rcases List.mem_append.mp hm with hm' | hm'
    · rcases List.mem_append.mp hm' with hm'' | hm''
      · exact (hpre _ hm'').2 rfl
      · exact hmid hm''
    · exact hpost _ hm' rfl
  unfold extract_json_from_content
  dsimp only
  rw [strat1_no_backtick _ hbt _, strat2_no_backtick _ hbt _, List.nil_append,
    List.nil_append]
  have harr : pre ++ shape2 seg0 gs ++ post = pre ++ (shape2 seg0 gs ++ post) := by
    rw [List.append_assoc]
  have hflen : (pre ++ shape2 seg0 gs ++ post).length + 1 =
      pre.length + ((shape2 seg0 gs ++ post).length + 1) := by
    rw [harr]
    simp only [List.length_append]
    omega
  rw [hflen, harr, strat3_skip pre (fun c hc => (hpre c hc).1) _ _]
  have hge : gs.length ≤ (shape2 seg0 gs ++ post).length := by
    have h1 := groupsText_length_le gs
    simp only [shape2, List.length_append, List.length_cons, List.length_nil]
    omega
  obtain ⟨f, hf⟩ : ∃ f, (shape2 seg0 gs ++ post).length + 1 = gs.length + f + 1 :=
    ⟨(shape2 seg0 gs ++ post).length - gs.length, by omega⟩
  rw [hf, strat3Matches_shape2 f seg0 gs post hseg hgs, tryCandidates.eq_2,
    tryCandidate_shape2 seg0 gs j hparse hobj]

theorem findSub_skip (p0 : Char) (ps pre rest : List Char) (hpre : p0 ∉ pre) :
    findSub (p0 :: ps) (pre ++ p0 :: (ps ++ rest)) = some (pre, rest) := by
  induction pre with
  | nil =>
    rw [List.nil_append]
    unfold findSub
    rw [if_pos (show (p0 :: ps).isPrefixOf (p0 :: (ps ++ rest)) = true from
      isPrefixOf_append_self (p0 :: ps) rest)]
    simp only [List.length_cons, List.drop_succ_cons, List.drop_left]
  | cons c t ih =>
    rw [List.cons_append]
    unfold findSub
    have hpf : ((p0 :: ps).isPrefixOf (c :: (t ++ p0 :: (ps ++ rest)))) = false := by
      have hne : (p0 == c) = false :=
        beq_eq_false_iff_ne.mpr fun he => hpre (he ▸ List.mem_cons_self c t)
      show (p0 == c && ps.isPrefixOf (t ++ p0 :: (ps ++ rest))) = false
      rw [hne, Bool.false_and]
    rw [if_neg (by rw [hpf]; exact Bool.false_ne_true),
      ih fun hm => hpre (List.mem_cons_of_mem c hm)]

theorem strat1Matches_fenced (f : Nat) (pre body post : List Char)
    (hpre : '`' ∉ pre) (hbody : '`' ∉ body) :
    strat1Matches (f + 1) (pre ++ ("```json".data ++ (body ++ ("```".data ++ post)))) =
      body :: strat1Matches f post := by
  have h1 : findSub "```json".data
      (pre ++ ("```json".data ++ (body ++ ("```".data ++ post)))) =
      some (pre, body ++ ("```".data ++ post)) :=
    findSub_skip '`' "``json".data pre (body ++ ("```".data ++ post)) hpre
  have h2 : findSub "```".data (body ++ ("```".data ++ post)) = some (body, post) :=
    findSub_skip '`' "``".data body post hbody
  rw [strat1Matches.eq_2, h1]
  simp only [h2]

theorem extract_fenced_block (pre body post : List Char) (j : Json)
    (hpre : '`' ∉ pre) (hbody : '`' ∉ body)
    (hparse : jsonLoadsChars (clean_json_string (pyStrip body)) = some j)
    (hobj : j.isNonEmptyObj = true) :
    extract_json_from_content
        (String.mk (pre ++ ("```json".data ++ (body ++ ("```".data ++ post))))) = some j := by
  have htc : tryCandidate body = some j := by
    unfold tryCandidate
    dsimp only
    rw [hparse]
    simp [hobj]
  unfold extract_json_from_content
  dsimp only
  rw [strat1Matches_fenced _ pre body post hpre hbody, List.cons_append,
    List.cons_append, tryCandidates.eq_2, htc]

/-- C4 (amended): `extract_json_from_content` returns the whole object,
except for bare objects of brace-nesting depth ≥ 3.  (i) A bare object
span of the exact shape the strategy-3 pattern matches — brace-nesting
depth at most two, with members of any kind — whose text parses as a
non-empty JSON object is returned whole whenever the text to its left is
free of `{` and the input is free of backticks.  (ii) A fenced
```` ```json ```` block whose backtick-free body parses (after the
parser's stripping and cleaning) as a non-empty object is returned whole
at any nesting depth, for a backtick-free prefix and an arbitrary
suffix.  The original claim's "at any brace-nesting depth" fails for
bare objects of depth ≥ 3: see the counterexample. -/
theorem c4_extract_whole_object :
    (∀ (pre seg0 : List Char) (gs : List (List Char × List Char)) (post : List Char)
      (j : Json),
      (∀ c ∈ pre, c ≠ '{' ∧ c ≠ '`') →
      (∀ c ∈ seg0, nonBrace c = true) →
      (∀ g ∈ gs, (∀ c ∈ g.1, nonBrace c = true) ∧ (∀ c ∈ g.2, nonBrace c = true)) →
      '`' ∉ shape2 seg0 gs →
      (∀ c ∈ post, c ≠ '`') →
      jsonLoadsChars (shape2 seg0 gs) = some j →
      j.isNonEmptyObj = true →
      extract_json_from_content (String.mk (pre ++ shape2 seg0 gs ++ post)) = some j) ∧
    (∀ (pre body post : List Char) (j : Json),
      '`' ∉ pre →
      '`' ∉ body →
      jsonLoadsChars (clean_json_string (pyStrip body)) = some j →
      j.isNonEmptyObj = true →
      extract_json_from_content
          (String.mk (pre ++ ("```json".data ++ (body ++ ("```".data ++ post))))) = some j) :=
  ⟨fun pre seg0 gs post j hpre hseg hgs hmid hpost hparse hobj =>
    extract_bare_shape2 pre seg0 gs post j hpre hseg hgs hmid hpost hparse hobj,
  fun pre body post j hpre hbody hparse hobj =>
    extract_fenced_block pre body post j hpre hbody hparse hobj⟩

/-- C4 witness: the amended statement evaluated on the bare depth-2
object of `blah {"a":1,"b":{"c":2}} trailing` and on a depth-3 object in
a ```` ```json ```` fence. -/
theorem c4_witness :
    extract_json_from_content "blah \x7b\"a\":1,\"b\":\x7b\"c\":2\x7d\x7d trailing" =
        some (.obj [("a", .num 1), ("b", .obj [("c", .num 2)])]) ∧
    extract_json_from_content "x ```json\n\x7b\"a\":\x7b\"b\":\x7b\"c\":1\x7d\x7d\x7d\n``` y" =
        some (.obj [("a", .obj [("b", .obj [("c", .num 1)])])]) := by
  constructor
  · exact c4_extract_whole_object.1 "blah ".data "\"a\":1,\"b\":".data
      [("\"c\":2".data, [])] " trailing".data
      (.obj [("a", .num 1), ("b", .obj [("c", .num 2)])])
      (by decide) (by decide) (by decide) (by decide) (by decide) rfl rfl
  · exact c4_extract_whole_object.2 "x ".data
      "\n\x7b\"a\":\x7b\"b\":\x7b\"c\":1\x7d\x7d\x7d\n".data " y".data
      (.obj [("a", .obj [("b", .obj [("c", .num 1)])])])
      (by decide) (by decide) rfl rfl
